import Mathlib

/-!
Shallow embedding of the recurrence, rollover and template engine of the
DispatchTodoApp repository, together with theorems checking the claims of
its specification against the code.

Calendar conventions follow the JavaScript runtime the source runs on:
dates are manipulated as UTC calendar days, an epoch day is the signed
number of days since 1970-01-01, and month arithmetic normalizes overflow
by floor division (setUTCMonth semantics).  Division and remainder on Int
in Lean are Euclidean, which for the positive divisors used here coincide
with the floor semantics of the JavaScript operations being modelled.
-/

/-- Leap year test on the proleptic Gregorian calendar, as used by the
JavaScript Date object (UTC). -/
def isLeapYear (y : Int) : Bool :=
  y % 4 == 0 && (y % 100 != 0 || y % 400 == 0)

/-- Number of days of year y, 366 in leap years and 365 otherwise. -/
def daysInYear (y : Int) : Nat :=
  if isLeapYear y then 366 else 365

/-- Number of days of month m (1-12) of year y. -/
def daysInMonth (y : Int) (m : Int) : Nat :=
  if m = 2 then (if isLeapYear y then 29 else 28)
  else if m = 4 ∨ m = 6 ∨ m = 9 ∨ m = 11 then 30
  else 31

/-- Number of days of year y that precede the first day of month m (1-12). -/
def daysBeforeMonth (y : Int) (m : Int) : Nat :=
  let l : Nat := if isLeapYear y then 1 else 0
  if m ≤ 1 then 0
  else if m = 2 then 31
  else if m = 3 then 59 + l
  else if m = 4 then 90 + l
  else if m = 5 then 120 + l
  else if m = 6 then 151 + l
  else if m = 7 then 181 + l
  else if m = 8 then 212 + l
  else if m = 9 then 243 + l
  else if m = 10 then 273 + l
  else if m = 11 then 304 + l
  else 334 + l

/-- Number of days from 0000-01-01 to the first day of year y, counted
signed so that the formula holds for every integer year. -/
def daysFromYear0 (y : Int) : Int :=
  365 * y + (y + 3) / 4 - (y + 99) / 100 + (y + 399) / 400

/-- Epoch day (days since 1970-01-01) of the first day of year y. -/
def daysToYearStart (y : Int) : Int :=
  daysFromYear0 y - 719528

/-- Epoch day of the calendar day (y, m, d).  Out-of-range day values are
normalized by offset arithmetic exactly as Date.UTC does. -/
def epochDayOfYmd (y : Int) (m : Int) (d : Int) : Int :=
  daysToYearStart y + (daysBeforeMonth y m : Int) + (d - 1)

/-- Epoch day of Date.UTC(y, monthIndex, d): the month index is first
normalized into the year by floor division, then the day offset is added,
matching the overflow semantics of the JavaScript Date setters. -/
def jsUtcEpochDay (y : Int) (monthIndex : Int) (d : Int) : Int :=
  let t := 12 * y + monthIndex
  epochDayOfYmd (t / 12) (t % 12 + 1) d

/-- Year lookup for a nonnegative epoch offset: starting from year y with
n days remaining, march forward one year at a time.  Returns the year and
the zero-based day offset inside it.  The fuel argument only bounds the
recursion; the entry point supplies more fuel than years can be crossed,
and on exhaustion the current position is returned. -/
def yearUpFrom : Nat → Int → Nat → Int × Nat
  | 0, y, n => (y, n)
  | Nat.succ fuel, y, n =>
    if n < daysInYear y then (y, n)
    else yearUpFrom fuel (y + 1) (n - daysInYear y)

/-- Year lookup for a negative epoch offset: m (at least 1) days before
the first day of year y, marching backward one year at a time.  Returns
the year and the zero-based day offset inside it.  Fuel as in
yearUpFrom; the exhaustion case is unreachable from the entry point. -/
def yearDownFrom : Nat → Int → Nat → Int × Nat
  | 0, y, m => (y, m)
  | Nat.succ fuel, y, m =>
    if m ≤ daysInYear (y - 1) then (y - 1, daysInYear (y - 1) - m)
    else yearDownFrom fuel (y - 1) (m - daysInYear (y - 1))

/-- Month lookup inside year y: starting from month m with the zero-based
day offset r, march forward one month at a time.  Returns the month and
the one-based day of month.  Started at month 1 with fuel 11, the fuel
runs out exactly when month 12 is reached, so the exhaustion case
returns month 12, as the bounds check of the original loop does. -/
def monthOfDayOfYear : Nat → Int → Nat → Nat → Nat × Nat
  | 0, _, _, r => (12, r + 1)
  | Nat.succ fuel, y, m, r =>
    if r < daysInMonth y m then (m, r + 1)
    else monthOfDayOfYear fuel y (m + 1) (r - daysInMonth y m)

/-- Year and zero-based day-of-year of an epoch day, by marching from
1970 in the direction given by the sign. -/
def yearAndDayOfDays (n : Int) : Int × Nat :=
  if 0 ≤ n then yearUpFrom (n.toNat + 1) 1970 n.toNat
  else yearDownFrom ((-n).toNat + 1) 1970 (-n).toNat

/-- Calendar day (year, month, day) of an epoch day, the inverse of
epochDayOfYmd on valid calendar days; models the getUTCFullYear,
getUTCMonth and getUTCDate accessors of a JavaScript Date. -/
def civilFromDays (n : Int) : Int × Int × Int :=
  ((yearAndDayOfDays n).1,
   ((monthOfDayOfYear 11 (yearAndDayOfDays n).1 1 (yearAndDayOfDays n).2).1 : Int),
   ((monthOfDayOfYear 11 (yearAndDayOfDays n).1 1 (yearAndDayOfDays n).2).2 : Int))

theorem daysFromYear0_succ (y : Int) :
    daysFromYear0 (y + 1) = daysFromYear0 y + daysInYear y := by
  unfold daysFromYear0 daysInYear isLeapYear
  split
  · rename_i h
    simp only [Bool.and_eq_true, beq_iff_eq, Bool.or_eq_true, bne_iff_ne, ne_eq] at h
    omega
  · rename_i h
    simp only [Bool.and_eq_true, beq_iff_eq, Bool.or_eq_true, bne_iff_ne, ne_eq] at h
    push_neg at h
    by_cases h4 : y % 4 = 0
    · have := h h4
      omega
    · omega

theorem daysToYearStart_succ (y : Int) :
    daysToYearStart (y + 1) = daysToYearStart y + daysInYear y := by
  unfold daysToYearStart
  rw [daysFromYear0_succ]
  omega

/-- Sum of the lengths of k consecutive years starting at year y. -/
def yearSpanDays (y : Int) : Nat → Nat
  | 0 => 0
  | k + 1 => daysInYear y + yearSpanDays (y + 1) k

theorem yearSpanDays_eq (y : Int) (k : Nat) :
    (yearSpanDays y k : Int) = daysToYearStart (y + k) - daysToYearStart y := by
  induction k generalizing y with
  | zero => simp [yearSpanDays]
  | succ k ih =>
    have h1 := daysToYearStart_succ y
    have h2 := ih (y + 1)
    have hg : y + ((k : Nat) + 1 : Nat) = y + 1 + (k : Int) := by push_cast; ring
    rw [hg]
    simp only [yearSpanDays]
    push_cast
    omega

theorem yearUpFrom_correct (k : Nat) (fuel : Nat) (y : Int) (r : Nat)
    (hk : k ≤ fuel) (hr : r < daysInYear (y + k)) :
    yearUpFrom fuel y (yearSpanDays y k + r) = (y + k, r) := by
  induction k generalizing y fuel with
  | zero =>
    simp only [yearSpanDays, Nat.zero_add, Nat.cast_zero, add_zero] at hr ⊢
    match fuel with
    | 0 => rw [yearUpFrom]
    | Nat.succ fuel =>
      rw [yearUpFrom]
      rw [if_pos hr]
  | succ k ih =>
    match fuel with
    | Nat.succ fuel =>
      rw [yearUpFrom]
      have hle : daysInYear y ≤ yearSpanDays y (k + 1) + r := by
        simp only [yearSpanDays]; omega
      have hr1 : r < daysInYear (y + 1 + k) := by
        have hc : y + 1 + (k : Int) = y + ((k : Nat) + 1 : Nat) := by push_cast; ring
        rw [hc]; exact hr
      rw [if_neg (by omega)]
      have harg : yearSpanDays y (k + 1) + r - daysInYear y
          = yearSpanDays (y + 1) k + r := by
        simp only [yearSpanDays]; omega
      rw [harg, ih fuel (y + 1) (by omega) hr1]
      simp only [Prod.mk.injEq]
      constructor <;> first | trivial | (push_cast; ring)

theorem yearSpanDays_top (y : Int) (k : Nat) :
    yearSpanDays y (k + 1) = yearSpanDays y k + daysInYear (y + k) := by
  induction k generalizing y with
  | zero => simp [yearSpanDays]
  | succ k ih =>
    have h1 : yearSpanDays y (k + 1 + 1) = daysInYear y + yearSpanDays (y + 1) (k + 1) := rfl
    have h2 : yearSpanDays y (k + 1) = daysInYear y + yearSpanDays (y + 1) k := rfl
    have h3 := ih (y + 1)
    have he : y + 1 + (k : Int) = y + ((k : Nat) + 1 : Nat) := by push_cast; ring
    rw [he] at h3
    omega

theorem daysInYear_bounds (y : Int) : 365 ≤ daysInYear y ∧ daysInYear y ≤ 366 := by
  unfold daysInYear; split <;> omega

theorem yearDownFrom_correct (k : Nat) (fuel : Nat) (y : Int) (r : Nat)
    (hk : k + 1 ≤ fuel) (hr : r < daysInYear (y - (k + 1 : Nat))) :
    yearDownFrom fuel y (yearSpanDays (y - (k + 1 : Nat)) (k + 1) - r)
      = (y - (k + 1 : Nat), r) := by
  induction k generalizing y fuel with
  | zero =>
    match fuel with
    | Nat.succ fuel =>
      rw [yearDownFrom]
      have hy1 : y - (0 + 1 : Nat) = y - 1 := by push_cast; ring
      rw [hy1] at hr ⊢
      have hspan : yearSpanDays (y - 1) 1 = daysInYear (y - 1) := by
        simp [yearSpanDays]
      rw [hspan]
      rw [if_pos (by omega)]
      simp only [Prod.mk.injEq]
      constructor <;> first | trivial | omega
  | succ k ih =>
    match fuel with
    | Nat.succ fuel =>
      rw [yearDownFrom]
      have hY : y - (k + 1 + 1 : Nat) = (y - 1) - (k + 1 : Nat) := by push_cast; ring
      have htopyear : y - (k + 1 + 1 : Nat) + ((k + 1 : Nat) : Int) = y - 1 := by
        push_cast; ring
      have htop : yearSpanDays (y - (k + 1 + 1 : Nat)) (k + 1 + 1)
          = yearSpanDays (y - (k + 1 + 1 : Nat)) (k + 1) + daysInYear (y - 1) := by
        rw [yearSpanDays_top, htopyear]
      have hbot : yearSpanDays (y - (k + 1 + 1 : Nat)) (k + 1)
          = daysInYear (y - (k + 1 + 1 : Nat)) + yearSpanDays (y - (k + 1 + 1 : Nat) + 1) k := rfl
      have hb1 := daysInYear_bounds (y - (k + 1 + 1 : Nat))
      have hb2 := daysInYear_bounds (y - 1)
      rw [if_neg (by omega)]
      have harg : yearSpanDays (y - (k + 1 + 1 : Nat)) (k + 1 + 1) - r - daysInYear (y - 1)
          = yearSpanDays ((y - 1) - (k + 1 : Nat)) (k + 1) - r := by
        rw [htop, hY]
        omega
      rw [harg]
      have hr1 : r < daysInYear ((y - 1) - (k + 1 : Nat)) := by rw [← hY]; exact hr
      rw [ih fuel (y - 1) (by omega) hr1, ← hY]

/-- Sum of the lengths of k consecutive months of year y starting at
month m. -/
def monthSpanDays (y : Int) (m : Nat) : Nat → Nat
  | 0 => 0
  | k + 1 => daysInMonth y m + monthSpanDays y (m + 1) k

theorem daysInMonth_bounds (y m : Int) : 28 ≤ daysInMonth y m ∧ daysInMonth y m ≤ 31 := by
  unfold daysInMonth
  split
  · split <;> omega
  · split <;> omega

theorem monthSpanDays_eq_daysBeforeMonth (y : Int) (M : Nat) (h1 : 1 ≤ M) (h12 : M ≤ 12) :
    monthSpanDays y 1 (M - 1) = daysBeforeMonth y M := by
  interval_cases M <;>
    simp [monthSpanDays, daysInMonth, daysBeforeMonth] <;>
    split <;> omega

theorem daysBeforeMonth_add_le (y : Int) (M : Nat) (h1 : 1 ≤ M) (h12 : M ≤ 12) :
    daysBeforeMonth y M + daysInMonth y M ≤ daysInYear y := by
  interval_cases M <;>
    simp [daysInMonth, daysBeforeMonth, daysInYear] <;>
    split <;> omega

theorem monthOfDayOfYear_correct (y : Int) (k fuel m r : Nat)
    (hm : 1 ≤ m) (h12 : m + k ≤ 12) (hr : r < daysInMonth y (m + k : Nat))
    (hfuel : k < fuel ∨ (m + k = 12 ∧ k ≤ fuel)) :
    monthOfDayOfYear fuel y m (monthSpanDays y m k + r) = (m + k, r + 1) := by
  induction k generalizing m fuel with
  | zero =>
    simp only [monthSpanDays, Nat.zero_add, Nat.add_zero] at hr hfuel ⊢
    match fuel with
    | 0 =>
      rw [monthOfDayOfYear]
      have hm12 : m = 12 := by omega
      rw [hm12]
    | Nat.succ fuel =>
      rw [monthOfDayOfYear]
      rw [if_pos hr]
  | succ k ih =>
    match fuel with
    | 0 => omega
    | Nat.succ fuel =>
      rw [monthOfDayOfYear]
      have hms : monthSpanDays y m (k + 1) = daysInMonth y m + monthSpanDays y (m + 1) k := rfl
      rw [if_neg (by omega)]
      have harg : monthSpanDays y m (k + 1) + r - daysInMonth y m
          = monthSpanDays y (m + 1) k + r := by omega
      rw [harg]
      have hr1 : r < daysInMonth y (m + 1 + k : Nat) := by
        have he : m + 1 + k = m + (k + 1) := by omega
        rw [he]; exact hr
      rw [ih fuel (m + 1) (by omega) (by omega) hr1 (by omega)]
      have he : m + 1 + k = m + (k + 1) := by omega
      rw [he]

theorem yearSpanDays_lower (y : Int) (k : Nat) : 365 * k ≤ yearSpanDays y k := by
  induction k generalizing y with
  | zero => simp [yearSpanDays]
  | succ k ih =>
    have hb := daysInYear_bounds y
    have h2 := ih (y + 1)
    simp only [yearSpanDays]
    omega

theorem daysToYearStart_1970 : daysToYearStart 1970 = 0 := by decide

/-- Round trip of the calendar conversion: on a valid calendar day the
accessors recover exactly the components the epoch day was built from. -/
theorem civilFromDays_epochDayOfYmd (y m d : Int)
    (hm1 : 1 ≤ m) (hm2 : m ≤ 12) (hd1 : 1 ≤ d) (hd2 : d ≤ daysInMonth y m) :
    civilFromDays (epochDayOfYmd y m d) = (y, m, d) := by
  have hM : m = ((m.toNat : Nat) : Int) := by omega
  have hD : d = ((d.toNat : Nat) : Int) := by omega
  set M := m.toNat with hMdef
  set D := d.toNat with hDdef
  have hM1 : 1 ≤ M := by omega
  have hM12 : M ≤ 12 := by omega
  have hdim : daysInMonth y m = daysInMonth y (M : Int) := by rw [← hM]
  have hdbm : daysBeforeMonth y m = daysBeforeMonth y (M : Int) := by rw [← hM]
  -- the zero-based day of year
  have hdoylt : daysBeforeMonth y M + (D - 1) < daysInYear y := by
    have := daysBeforeMonth_add_le y M hM1 hM12
    have hdd : d ≤ daysInMonth y (M : Int) := by rw [← hdim]; exact hd2
    omega
  have hspanmonth : monthSpanDays y 1 (M - 1) + (D - 1) = daysBeforeMonth y M + (D - 1) := by
    rw [monthSpanDays_eq_daysBeforeMonth y M hM1 hM12]
  have hmonth := monthOfDayOfYear_correct y (M - 1) 11 1 (D - 1)
    (by omega) (by omega)
    (by
      have he : 1 + (M - 1) = M := by omega
      rw [he]
      have hdd : d ≤ daysInMonth y (M : Int) := by rw [← hdim]; exact hd2
      omega)
    (by omega)
  rw [hspanmonth] at hmonth
  have hn : epochDayOfYmd y m d
      = daysToYearStart y + ((daysBeforeMonth y M + (D - 1) : Nat) : Int) := by
    unfold epochDayOfYmd
    rw [hdbm]
    push_cast
    omega
  have hyd : yearAndDayOfDays (epochDayOfYmd y m d) = (y, daysBeforeMonth y M + (D - 1)) := by
    by_cases hy : 1970 ≤ y
    · -- forward march from 1970
      set k := (y - 1970).toNat with hkdef
      have hyk : y = 1970 + (k : Int) := by omega
      have hspan : (yearSpanDays 1970 k : Int) = daysToYearStart y := by
        rw [yearSpanDays_eq, ← hyk, daysToYearStart_1970]
        omega
      have hnval : epochDayOfYmd y m d
          = ((yearSpanDays 1970 k + (daysBeforeMonth y M + (D - 1)) : Nat) : Int) := by
        rw [hn, ← hspan]; push_cast; omega
      have hnn : 0 ≤ epochDayOfYmd y m d := by rw [hnval]; positivity
      have hlow := yearSpanDays_lower 1970 k
      have hup := yearUpFrom_correct k
        (yearSpanDays 1970 k + (daysBeforeMonth y M + (D - 1)) + 1) 1970
        (daysBeforeMonth y M + (D - 1))
        (by omega)
        (by rw [← hyk]; exact hdoylt)
      unfold yearAndDayOfDays
      rw [if_pos hnn]
      have htn : (epochDayOfYmd y m d).toNat
          = yearSpanDays 1970 k + (daysBeforeMonth y M + (D - 1)) := by
        rw [hnval]; omega
      rw [htn, hup, ← hyk]
    · -- backward march from 1970
      set k := (1970 - y).toNat with hkdef
      have hk1 : 1 ≤ k := by omega
      have hyk : y = 1970 - (k : Int) := by omega
      obtain ⟨j, hj⟩ : ∃ j, k = j + 1 := ⟨k - 1, by omega⟩
      have hspan : (yearSpanDays y k : Int) = daysToYearStart 1970 - daysToYearStart y := by
        have h0 := yearSpanDays_eq y k
        rw [show y + (k : Int) = 1970 by omega] at h0
        omega
      have hspan0 : (yearSpanDays y k : Int) = -daysToYearStart y := by
        rw [hspan, daysToYearStart_1970]; omega
      have hlt : daysBeforeMonth y M + (D - 1) < yearSpanDays y k := by
        have hb : (daysInYear y : Int) ≤ (yearSpanDays y k : Int) := by
          rw [hj]
          have h0 : yearSpanDays y (j + 1) = daysInYear y + yearSpanDays (y + 1) j := rfl
          rw [h0]; push_cast; omega
        omega
      have hneg : epochDayOfYmd y m d < 0 := by
        rw [hn]
        have h0 : daysToYearStart y = -(yearSpanDays y k : Int) := by omega
        rw [h0]; push_cast; omega
      have htn : (-epochDayOfYmd y m d).toNat
          = yearSpanDays y k - (daysBeforeMonth y M + (D - 1)) := by
        rw [hn]
        have h0 : daysToYearStart y = -(yearSpanDays y k : Int) := by omega
        rw [h0]; push_cast; omega
      have hlow := yearSpanDays_lower y k
      have hdb := daysInYear_bounds y
      have hdown := yearDownFrom_correct j
        (yearSpanDays y k - (daysBeforeMonth y M + (D - 1)) + 1) 1970
        (daysBeforeMonth y M + (D - 1))
        (by omega)
        (by
          rw [show ((1970 : Int) - ((j + 1 : Nat) : Int)) = y by push_cast; omega]
          exact hdoylt)
      have hcast : ((1970 : Int) - ((j + 1 : Nat) : Int)) = y := by push_cast; omega
      rw [hcast] at hdown
      have hjk : yearSpanDays y (j + 1) = yearSpanDays y k := by rw [hj]
      rw [hjk] at hdown
      unfold yearAndDayOfDays
      rw [if_neg (by omega), htn, hdown]
  unfold civilFromDays
  rw [hyd]
  simp only [hmonth]
  simp only [Prod.mk.injEq]
  refine ⟨trivial, by omega, by omega⟩

/-! String rendering and parsing of calendar days. -/

/-- Decimal value of a digit character. -/
def digitVal (c : Char) : Nat := c.toNat - '0'.toNat

/-- Pad a string on the left with zeros up to width w, as the padStart
calls of the source do. -/
def padZeros (w : Nat) (s : String) : String :=
  if s.length < w then String.mk (List.replicate (w - s.length) '0') ++ s else s

/-- Date part of Date.prototype.toISOString for the calendar day
(y, m, d): years 0 to 9999 print as four digits, years outside that
range use the expanded six-digit form with an explicit sign. -/
def jsISOStringDate (y m d : Int) : String :=
  let mm := padZeros 2 (Nat.repr m.toNat)
  let dd := padZeros 2 (Nat.repr d.toNat)
  if 0 ≤ y ∧ y ≤ 9999 then padZeros 4 (Nat.repr y.toNat) ++ "-" ++ mm ++ "-" ++ dd
  else if 9999 < y then "+" ++ padZeros 6 (Nat.repr y.toNat) ++ "-" ++ mm ++ "-" ++ dd
  else "-" ++ padZeros 6 (Nat.repr (-y).toNat) ++ "-" ++ mm ++ "-" ++ dd

/-- Canonical rendering of a calendar day given by its epoch day: models
the toIsoDate helper of the source, date.toISOString().slice(0, 10).
The slice is a take of the first ten characters, which is the identity
exactly when the year has at most four digits. -/
def toIsoDate (e : Int) : String :=
  let c := civilFromDays e
  String.mk ((jsISOStringDate c.1 c.2.1 c.2.2).data.take 10)

/-- Structural parse of a string of shape YYYY-MM-DD into its three
numeric components; models the regex test of parseIsoDate. -/
def parseYmd (s : String) : Option (Int × Int × Int) :=
  match s.data with
  | [y1, y2, y3, y4, s1, m1, m2, s2, d1, d2] =>
    if (y1.isDigit && y2.isDigit && y3.isDigit && y4.isDigit
        && (s1 == '-') && m1.isDigit && m2.isDigit
        && (s2 == '-') && d1.isDigit && d2.isDigit) then
      some ((digitVal y1 * 1000 + digitVal y2 * 100 + digitVal y3 * 10 + digitVal y4 : Nat),
            (digitVal m1 * 10 + digitVal m2 : Nat),
            (digitVal d1 * 10 + digitVal d2 : Nat))
    else none
  | _ => none

/-- Parse of an ISO calendar-day string into an epoch day; models
parseIsoDate of src/lib/task-recurrence-preview.ts.  The source tests
the regex, builds a Date from the string and then compares the
round-trip rendering with the input; for strings matching the regex the
combined effect of the engine date parse and the round-trip comparison
is to accept exactly the real calendar days (an engine that normalizes
an out-of-range component would fail the round-trip comparison, an
engine that rejects it returns NaN upfront), which is what is modelled
here. -/
def parseIsoDate (s : String) : Option Int :=
  match parseYmd s with
  | none => none
  | some (y, m, d) =>
    if 1 ≤ m ∧ m ≤ 12 ∧ 1 ≤ d ∧ d ≤ (daysInMonth y m : Int) then
      some (epochDayOfYmd y m d)
    else none

/-! Recurrence rule model, from src/lib/task-recurrence-preview.ts. -/

inductive TaskRecurrenceType where
  | none
  | daily
  | weekly
  | monthly
  | custom
deriving DecidableEq, Repr

inductive TaskCustomRecurrenceUnit where
  | day
  | week
  | month
deriving DecidableEq, Repr

structure TaskCustomRecurrenceRule where
  interval : Int
  unit : TaskCustomRecurrenceUnit
deriving DecidableEq, Repr

/-- Loosely typed runtime values flowing into the rule parser: the
unknown-typed recurrenceRule column and request fields.  Numbers are
modelled exactly; vint carries a number for which Number.isInteger is
true and vnumNonInt stands for any other number. -/
inductive JsValue where
  | vnull
  | vundefined
  | vbool (b : Bool)
  | vint (n : Int)
  | vnumNonInt
  | vstr (s : String)
  | varr (elems : List JsValue)
  | vobj (fields : List (String × JsValue))

/-- Test for the two nullish values. -/
def isNullish (v : JsValue) : Bool :=
  match v with
  | .vnull => true
  | .vundefined => true
  | _ => false

/-- Property lookup on a runtime value: objects look keys up with the
last binding winning (matching JSON.parse duplicate-key behavior);
every other value has no named properties relevant here. -/
def jsGetProp (v : JsValue) (key : String) : Option JsValue :=
  match v with
  | .vobj fields => (fields.reverse.find? (fun f => f.1 == key)).map (fun f => f.2)
  | _ => Option.none

/-- Test isObject of the source: typeof gives object for plain objects
and arrays, and the null check removes null. -/
def isObject (v : JsValue) : Bool :=
  match v with
  | .vobj _ => true
  | .varr _ => true
  | _ => false

/-! Executable model of JSON.parse, for the string branch of the rule
parser.  The grammar is ECMA-404; numbers are evaluated exactly (their
integer status is decided on the mathematical value rather than on the
binary64 rounding, which agrees on every value near the validated
range), and unicode escapes denoting surrogate halves are not modelled
since no consumer of the parsed value can distinguish them. -/

def jsonWsChar (c : Char) : Bool :=
  c == ' ' || c == '\t' || c == '\n' || c == '\r'

def skipWs (cs : List Char) : List Char := cs.dropWhile jsonWsChar

def hexVal (c : Char) : Option Nat :=
  if c.isDigit then some (digitVal c)
  else if 'a' ≤ c ∧ c ≤ 'f' then some (c.toNat - 'a'.toNat + 10)
  else if 'A' ≤ c ∧ c ≤ 'F' then some (c.toNat - 'A'.toNat + 10)
  else Option.none

/-- Unicode code point of a \uXXXX escape, when it is a valid scalar
value (surrogate halves are not modelled). -/
def hexQuad (h1 h2 h3 h4 : Char) : Option Char :=
  match hexVal h1, hexVal h2, hexVal h3, hexVal h4 with
  | some a, some b, some c, some d =>
    let n := ((a * 16 + b) * 16 + c) * 16 + d
    if h : n < 0xd800 then some (Char.ofNatAux n (by omega))
    else if h2 : 0xdfff < n ∧ n < 0x110000 then some (Char.ofNatAux n (by omega))
    else Option.none
  | _, _, _, _ => Option.none

/-- Decoded character of a single-character escape sequence. -/
def escChar (e : Char) : Option Char :=
  if e == '"' then some '"'
  else if e == '\\' then some '\\'
  else if e == '/' then some '/'
  else if e == 'b' then some (Char.ofNatAux 8 (by omega))
  else if e == 'f' then some (Char.ofNatAux 12 (by omega))
  else if e == 'n' then some '\n'
  else if e == 'r' then some '\r'
  else if e == 't' then some '\t'
  else Option.none

/-- Body of a JSON string literal after the opening quote: returns the
decoded content and the input remaining after the closing quote.  A
backslash before the letter u introduces a four-digit escape (escChar
of the letter u is none, so the plain-escape path agrees with the
failure of a truncated unicode escape). -/
def jsonStrBody : List Char → Option (List Char × List Char)
  | [] => Option.none
  | c :: rest =>
    if c == '"' then some ([], rest)
    else if c == '\\' then
      match rest with
      | [] => Option.none
      | e :: rest1 =>
        if e == 'u' then
          match rest1 with
          | h1 :: h2 :: h3 :: h4 :: rest2 =>
            match hexQuad h1 h2 h3 h4 with
            | some ch => (jsonStrBody rest2).map (fun p => (ch :: p.1, p.2))
            | Option.none => Option.none
          | _ => Option.none
        else
          match escChar e with
          | some ch => (jsonStrBody rest1).map (fun p => (ch :: p.1, p.2))
          | Option.none => Option.none
    else if c.toNat < 0x20 then Option.none
    else (jsonStrBody rest).map (fun p => (c :: p.1, p.2))

/-- Integer value of a list of decimal digits. -/
def digitsVal (ds : List Char) : Nat :=
  ds.foldl (fun a c => a * 10 + digitVal c) 0

/-- Digits of the integer part of a JSON number: a lone zero or a run
starting with a nonzero digit.  Returns the digits and the rest. -/
def jsonIntPart (cs : List Char) : Option (List Char × List Char) :=
  match cs with
  | [] => Option.none
  | c :: rest =>
    if ¬ c.isDigit then Option.none
    else if c == '0' then some ([c], rest)
    else some (cs.span Char.isDigit)

/-- Optional fraction of a JSON number: either absent or a dot followed
by at least one digit. -/
def jsonFracPart (cs : List Char) : Option (List Char × List Char) :=
  match cs with
  | '.' :: r =>
    let f := r.span Char.isDigit
    if f.1 = [] then Option.none else some (f.1, f.2)
  | _ => some ([], cs)

/-- Optional exponent of a JSON number: its signed value, or zero when
absent. -/
def jsonExpPart (cs : List Char) : Option (Int × List Char) :=
  match cs with
  | 'e' :: r => signedDigits r
  | 'E' :: r => signedDigits r
  | _ => some (0, cs)
where
  signedDigits (r : List Char) : Option (Int × List Char) :=
    let esign : Int := if r.head? = some '-' then -1 else 1
    let r1 := if r.head? = some '-' ∨ r.head? = some '+' then r.tail else r
    let ed := r1.span Char.isDigit
    if ed.1 = [] then Option.none else some (esign * (digitsVal ed.1 : Int), ed.2)

/-- Token of a JSON number: the exact value as a mantissa together with
a power-of-ten shift, and the rest of the input. -/
def jsonNumberParts (cs : List Char) : Option (Int × Int × List Char) :=
  let sign : Int := if cs.head? = some '-' then -1 else 1
  let cs1 := if cs.head? = some '-' then cs.tail else cs
  match jsonIntPart cs1 with
  | Option.none => Option.none
  | some (intDigits, rest1) =>
    match jsonFracPart rest1 with
    | Option.none => Option.none
    | some (fracDigits, rest2) =>
      match jsonExpPart rest2 with
      | Option.none => Option.none
      | some (e, rest3) =>
        some (sign * (digitsVal (intDigits ++ fracDigits) : Int),
              e - (fracDigits.length : Int), rest3)

/-- Value of a mantissa times ten to the shift, classified by the exact
integer status that Number.isInteger observes. -/
def mkJsonNumber (mantissa shift : Int) : JsValue :=
  if 0 ≤ shift then .vint (mantissa * 10 ^ shift.toNat)
  else if mantissa % 10 ^ (-shift).toNat = 0 then .vint (mantissa / 10 ^ (-shift).toNat)
  else .vnumNonInt

/-- JSON number: sign, integer part, optional fraction and exponent.
The result is vint when the exact value is an integer. -/
def jsonNumber (cs : List Char) : Option (JsValue × List Char) :=
  (jsonNumberParts cs).map (fun p => (mkJsonNumber p.1 p.2.1, p.2.2))

/-- Match an exact keyword at the head of the input. -/
def dropKeyword (kw : List Char) (cs : List Char) : Option (List Char) :=
  match kw, cs with
  | [], rest => some rest
  | k :: kws, c :: rest => if c == k then dropKeyword kws rest else Option.none
  | _ :: _, [] => Option.none

mutual

/-- One JSON value, fuel-bounded; the top entry point supplies fuel
larger than any possible nesting of its input. -/
def jsonParseValue : Nat → List Char → Option (JsValue × List Char)
  | 0, _ => Option.none
  | Nat.succ fuel, cs =>
    match skipWs cs with
    | [] => Option.none
    | c :: rest =>
      if c == '{' then
        match skipWs rest with
        | '}' :: rest1 => some (.vobj [], rest1)
        | other => (jsonParseMembers fuel other).map (fun p => (.vobj p.1, p.2))
      else if c == '[' then
        match skipWs rest with
        | ']' :: rest1 => some (.varr [], rest1)
        | other => (jsonParseElems fuel other).map (fun p => (.varr p.1, p.2))
      else if c == '"' then
        (jsonStrBody rest).map (fun p => (.vstr (String.mk p.1), p.2))
      else if c == 't' then
        (dropKeyword ['t', 'r', 'u', 'e'] (c :: rest)).map (fun r => (.vbool true, r))
      else if c == 'f' then
        (dropKeyword ['f', 'a', 'l', 's', 'e'] (c :: rest)).map (fun r => (.vbool false, r))
      else if c == 'n' then
        (dropKeyword ['n', 'u', 'l', 'l'] (c :: rest)).map (fun r => (.vnull, r))
      else if c == '-' || c.isDigit then
        jsonNumber (c :: rest)
      else Option.none

/-- Members of an object after the opening brace (nonempty case). -/
def jsonParseMembers : Nat → List Char → Option (List (String × JsValue) × List Char)
  | 0, _ => Option.none
  | Nat.succ fuel, cs =>
    match skipWs cs with
    | '"' :: rest =>
      match jsonStrBody rest with
      | Option.none => Option.none
      | some (key, rest1) =>
        match skipWs rest1 with
        | ':' :: rest2 =>
          match jsonParseValue fuel rest2 with
          | Option.none => Option.none
          | some (v, rest3) =>
            match skipWs rest3 with
            | ',' :: rest4 =>
              (jsonParseMembers fuel rest4).map
                (fun p => ((String.mk key, v) :: p.1, p.2))
            | '}' :: rest4 => some ([(String.mk key, v)], rest4)
            | _ => Option.none
        | _ => Option.none
    | _ => Option.none

/-- Elements of an array after the opening bracket (nonempty case). -/
def jsonParseElems : Nat → List Char → Option (List JsValue × List Char)
  | 0, _ => Option.none
  | Nat.succ fuel, cs =>
    match jsonParseValue fuel cs with
    | Option.none => Option.none
    | some (v, rest) =>
      match skipWs rest with
      | ',' :: rest1 => (jsonParseElems fuel rest1).map (fun p => (v :: p.1, p.2))
      | ']' :: rest1 => some ([v], rest1)
      | _ => Option.none

end

/-- Model of JSON.parse: parse one value and require only trailing
whitespace after it; any failure models the SyntaxError throw, which
the caller catches. -/
def jsonParse (s : String) : Option JsValue :=
  match jsonParseValue (s.length + 1) s.data with
  | some (v, rest) => if skipWs rest = [] then some v else Option.none
  | Option.none => Option.none

theorem jsonStrBody_shrink_bounded (n : Nat) : ∀ (cs content rest : List Char),
    cs.length ≤ n → jsonStrBody cs = some (content, rest) →
    content.length + rest.length < cs.length := by
  induction n with
  | zero =>
    intro cs content rest hlen h
    match cs with
    | [] => simp [jsonStrBody] at h
  | succ n ih =>
    intro cs content rest hlen h
    match cs with
    | [] => simp [jsonStrBody] at h
    | c :: rest0 =>
      rw [jsonStrBody.eq_def] at h
      simp only [] at h
      split_ifs at h with hq hb hctl
      · -- closing quote
        obtain ⟨h1, h2⟩ := Prod.mk.injEq _ _ _ _ ▸ Option.some.injEq _ _ ▸ h
        subst h1; subst h2; simp
      · -- backslash escape
        split at h
        · exact absurd h (by simp)
        · rename_i e rest1
          split_ifs at h with hu
          · -- unicode escape
            split at h
            · rename_i h1 h2 h3 h4 rest2
              split at h
              · rename_i ch hch
                obtain ⟨⟨c1, r1⟩, hp, he⟩ := Option.map_eq_some'.mp h
                obtain ⟨he1, he2⟩ := Prod.mk.injEq _ _ _ _ ▸ he
                subst he1; subst he2
                have hrec := ih rest2 c1 r1 (by simp at hlen ⊢; omega) hp
                simp only [List.length_cons]
                omega
              · exact absurd h (by simp)
            · exact absurd h (by simp)
          · -- single-character escape
            split at h
            · rename_i ch hch
              obtain ⟨⟨c1, r1⟩, hp, he⟩ := Option.map_eq_some'.mp h
              obtain ⟨he1, he2⟩ := Prod.mk.injEq _ _ _ _ ▸ he
              subst he1; subst he2
              have hrec := ih rest1 c1 r1 (by simp at hlen ⊢; omega) hp
              simp only [List.length_cons]
              omega
            · exact absurd h (by simp)
      · -- ordinary character
        obtain ⟨⟨c1, r1⟩, hp, he⟩ := Option.map_eq_some'.mp h
        obtain ⟨he1, he2⟩ := Prod.mk.injEq _ _ _ _ ▸ he
        subst he1; subst he2
        have hrec := ih rest0 c1 r1 (by simp at hlen ⊢; omega) hp
        simp only [List.length_cons]
        omega

theorem jsonStrBody_shrink (cs content rest : List Char)
    (h : jsonStrBody cs = some (content, rest)) :
    content.length + rest.length < cs.length :=
  jsonStrBody_shrink_bounded cs.length cs content rest (le_refl _) h

theorem skipWs_length (cs : List Char) : (skipWs cs).length ≤ cs.length :=
  (List.dropWhile_sublist jsonWsChar).length_le

/-- A number token never denotes a string value. -/
theorem jsonNumber_not_vstr (cs : List Char) (v : JsValue) (rest : List Char)
    (h : jsonNumber cs = some (v, rest)) : ∀ t, v ≠ .vstr t := by
  intro t hv
  unfold jsonNumber at h
  obtain ⟨p, hp, he⟩ := Option.map_eq_some'.mp h
  obtain ⟨he1, he2⟩ := Prod.mk.injEq _ _ _ _ ▸ he
  rw [hv] at he1
  revert he1
  unfold mkJsonNumber
  split
  · simp
  · split <;> simp

/-- When the parsed value is a string, it was read from a quoted
literal, so it is strictly shorter than the input. -/
theorem jsonParseValue_vstr_shrink (fuel : Nat) (cs : List Char) (t : String)
    (rest : List Char) (h : jsonParseValue fuel cs = some (.vstr t, rest)) :
    t.length < cs.length := by
  match fuel with
  | 0 => simp [jsonParseValue] at h
  | Nat.succ fuel =>
    rw [jsonParseValue] at h
    split at h
    · simp at h
    · rename_i c r hs
      have hr : r.length + 1 ≤ cs.length := by
        have h0 := skipWs_length cs
        rw [hs] at h0
        simpa using h0
      split_ifs at h with hc1 hc2 hc3 hc4 hc5 hc6 hc7
      · -- object
        split at h
        · exact absurd h (by simp)
        · obtain ⟨p, hp, he⟩ := Option.map_eq_some'.mp h
          obtain ⟨he1, he2⟩ := Prod.mk.injEq _ _ _ _ ▸ he
          exact absurd he1 (by simp)
      · -- array
        split at h
        · exact absurd h (by simp)
        · obtain ⟨p, hp, he⟩ := Option.map_eq_some'.mp h
          obtain ⟨he1, he2⟩ := Prod.mk.injEq _ _ _ _ ▸ he
          exact absurd he1 (by simp)
      · -- string
        obtain ⟨⟨content, r2⟩, hp, he⟩ := Option.map_eq_some'.mp h
        obtain ⟨he1, he2⟩ := Prod.mk.injEq _ _ _ _ ▸ he
        have hshrink := jsonStrBody_shrink r content r2 hp
        have hlen : t.length = content.length := by
          have hst : String.mk content = t := by
            have h0 := congrArg (fun v : JsValue =>
              match v with | .vstr s => s | _ => "") he1
            simpa using h0
          rw [← hst]
          rfl
        omega
      · -- true keyword
        obtain ⟨p, hp, he⟩ := Option.map_eq_some'.mp h
        obtain ⟨he1, he2⟩ := Prod.mk.injEq _ _ _ _ ▸ he
        exact absurd he1 (by simp)
      · -- false keyword
        obtain ⟨p, hp, he⟩ := Option.map_eq_some'.mp h
        obtain ⟨he1, he2⟩ := Prod.mk.injEq _ _ _ _ ▸ he
        exact absurd he1 (by simp)
      · -- null keyword
        obtain ⟨p, hp, he⟩ := Option.map_eq_some'.mp h
        obtain ⟨he1, he2⟩ := Prod.mk.injEq _ _ _ _ ▸ he
        exact absurd he1 (by simp)
      · -- number
        exact absurd rfl (jsonNumber_not_vstr _ _ _ h t)

/-- Measure used by the rule parser: a string can only recurse into the
result of parsing it, which the previous lemma shows is shorter. -/
def jsValueStrMeasure : JsValue → Nat
  | .vstr s => s.length + 1
  | _ => 0

theorem jsonParse_strMeasure (s : String) (v : JsValue) (h : jsonParse s = some v) :
    jsValueStrMeasure v < s.length + 1 := by
  match v with
  | .vstr t =>
    unfold jsonParse at h
    split at h
    · rename_i w rest heq
      split at h
      · have hv : w = JsValue.vstr t := by
          have h0 := Option.some.injEq w (JsValue.vstr t) ▸ h
          exact h0
        rw [hv] at heq
        have h0 := jsonParseValue_vstr_shrink (s.length + 1) s.data t rest heq
        simp only [jsValueStrMeasure]
        have hsd : s.data.length = s.length := rfl
        omega
      · exact absurd h (by simp)
    · exact absurd h (by simp)
  | .vnull => simp [jsValueStrMeasure]
  | .vundefined => simp [jsValueStrMeasure]
  | .vbool b => simp [jsValueStrMeasure]
  | .vint n => simp [jsValueStrMeasure]
  | .vnumNonInt => simp [jsValueStrMeasure]
  | .varr es => simp [jsValueStrMeasure]
  | .vobj fs => simp [jsValueStrMeasure]

/-- Parser of custom recurrence rules, from parseTaskCustomRecurrenceRule
of src/lib/task-recurrence-preview.ts: a string input is JSON-parsed and
fed back in (a parse failure models the caught exception), any
non-object is rejected, the interval property must be an integer number
between 1 and 365, and the unit property must be one of the three unit
strings. -/
def parseTaskCustomRecurrenceRuleGo : Nat → JsValue → Option TaskCustomRecurrenceRule
  | 0, _ => Option.none
  | Nat.succ fuel, v =>
    match v with
    | .vstr s =>
      match jsonParse s with
      | some w => parseTaskCustomRecurrenceRuleGo fuel w
      | Option.none => Option.none
    | v =>
      if ¬ isObject v then Option.none
      else
        match jsGetProp v "interval" with
        | some (.vint n) =>
          if n < 1 ∨ 365 < n then Option.none
          else
            match jsGetProp v "unit" with
            | some (.vstr u) =>
              if u = "day" then some ⟨n, .day⟩
              else if u = "week" then some ⟨n, .week⟩
              else if u = "month" then some ⟨n, .month⟩
              else Option.none
            | _ => Option.none
        | _ => Option.none

def parseTaskCustomRecurrenceRule (v : JsValue) : Option TaskCustomRecurrenceRule :=
  parseTaskCustomRecurrenceRuleGo (jsValueStrMeasure v + 1) v

/-- Fuel irrelevance of the bounded version of the rule parser: since
JSON-parsing a string yields a value of strictly smaller string measure,
any fuel above the measure computes the fixed point of the source
recursion, so the entry point is faithful to the unbounded recursion of
the source. -/
theorem parseTaskCustomRecurrenceRuleGo_fuel (f1 f2 : Nat) (v : JsValue)
    (h1 : jsValueStrMeasure v < f1) (h2 : jsValueStrMeasure v < f2) :
    parseTaskCustomRecurrenceRuleGo f1 v = parseTaskCustomRecurrenceRuleGo f2 v := by
  induction f1 generalizing v f2 with
  | zero => omega
  | succ f1 ih =>
    match f2 with
    | 0 => omega
    | Nat.succ f2 =>
      match v with
      | .vstr s =>
        rw [parseTaskCustomRecurrenceRuleGo, parseTaskCustomRecurrenceRuleGo]
        cases hw : jsonParse s with
        | none => rfl
        | some w =>
          simp only []
          have hlt := jsonParse_strMeasure s w hw
          have hms : jsValueStrMeasure (JsValue.vstr s) = s.length + 1 := rfl
          exact ih f2 w (by omega) (by omega)
      | .vnull => rfl
      | .vundefined => rfl
      | .vbool b => rfl
      | .vint n => rfl
      | .vnumNonInt => rfl
      | .varr es => rfl
      | .vobj fs => rfl

/-- Decimal rendering of an integer, as JSON.stringify renders the
validated interval. -/
def intDecimal (n : Int) : String :=
  if n < 0 then "-" ++ Nat.repr (-n).toNat else Nat.repr n.toNat

def unitString (u : TaskCustomRecurrenceUnit) : String :=
  match u with
  | .day => "day"
  | .week => "week"
  | .month => "month"

/-- Serializer of custom recurrence rules: JSON.stringify of the
two-field rule object, which renders its own keys in insertion order. -/
def serializeTaskCustomRecurrenceRule (r : TaskCustomRecurrenceRule) : String :=
  "\x7b\"interval\":" ++ intDecimal r.interval ++ ",\"unit\":\"" ++ unitString r.unit ++ "\"\x7d"

/-- Exhaustive round-trip check over the whole validated rule domain:
intervals 1 to 365 and the three units. -/
def c6RoundTripOk : Bool :=
  (List.range 365).all (fun i =>
    [TaskCustomRecurrenceUnit.day, TaskCustomRecurrenceUnit.week,
        TaskCustomRecurrenceUnit.month].all
      (fun u =>
        parseTaskCustomRecurrenceRule
            (JsValue.vstr (serializeTaskCustomRecurrenceRule ⟨(i : Int) + 1, u⟩))
          == some ⟨(i : Int) + 1, u⟩))

set_option maxRecDepth 100000 in
set_option maxHeartbeats 8000000 in
theorem c6RoundTripOk_true : c6RoundTripOk = true := by decide

/-- Resolution of the stored recurrence configuration into a canonical
rule, from getResolvedTaskRecurrenceRule of the source. -/
def getResolvedTaskRecurrenceRule (recurrenceType : TaskRecurrenceType)
    (recurrenceRule : JsValue) : Option TaskCustomRecurrenceRule :=
  match recurrenceType with
  | .none => Option.none
  | .daily => some ⟨1, .day⟩
  | .weekly => some ⟨1, .week⟩
  | .monthly => some ⟨1, .month⟩
  | .custom => parseTaskCustomRecurrenceRule recurrenceRule

/-- Month addition with day-of-month clamping, from addMonthsClamped of
the source: the day is first set to 1, the month is advanced with
overflow normalized into the year, and the day is restored capped at
the target month length. -/
def addMonthsClamped (e : Int) (amount : Int) : Int :=
  let c := civilFromDays e
  let t := 12 * c.1 + (c.2.1 - 1) + amount
  let y := t / 12
  let m := t % 12 + 1
  let lastDay : Int := daysInMonth y m
  epochDayOfYmd y m (min c.2.2 lastDay)

/-- Single next occurrence, from getNextTaskRecurrenceDate of the
source: resolve the rule (null when absent), parse the anchor (null
when malformed), then add days, weeks or clamped months. -/
def getNextTaskRecurrenceDate (anchorIsoDate : String)
    (recurrenceType : TaskRecurrenceType) (recurrenceRule : JsValue) : Option String :=
  match getResolvedTaskRecurrenceRule recurrenceType recurrenceRule with
  | Option.none => Option.none
  | some r =>
    match parseIsoDate anchorIsoDate with
    | Option.none => Option.none
    | some e =>
      match r.unit with
      | .day => some (toIsoDate (e + r.interval))
      | .week => some (toIsoDate (e + r.interval * 7))
      | .month => some (toIsoDate (addMonthsClamped e r.interval))

/-- Loop body of getNextTaskRecurrenceOnOrAfter: fuel counts the
remaining iterations of the bounded for loop. -/
def taskRecurrenceSearchLoop (recurrenceType : TaskRecurrenceType)
    (recurrenceRule : JsValue) (target : Int) : Nat → String → Option String
  | 0, _ => Option.none
  | Nat.succ fuel, cursor =>
    match parseIsoDate cursor with
    | Option.none => Option.none
    | some c =>
      if target ≤ c then some cursor
      else
        match getNextTaskRecurrenceDate cursor recurrenceType recurrenceRule with
        | Option.none => Option.none
        | some next => taskRecurrenceSearchLoop recurrenceType recurrenceRule target fuel next

/-- Bounded forward search, from getNextTaskRecurrenceOnOrAfter of the
source: parse the target, then iterate the loop at most 4000 times. -/
def getNextTaskRecurrenceOnOrAfter (anchorIsoDate : String)
    (recurrenceType : TaskRecurrenceType) (recurrenceRule : JsValue)
    (onOrAfterIsoDate : String) : Option String :=
  match parseIsoDate onOrAfterIsoDate with
  | Option.none => Option.none
  | some target => taskRecurrenceSearchLoop recurrenceType recurrenceRule target 4000 anchorIsoDate

/-- k-fold iteration of the single-step next occurrence, the cursor
chain the bounded search walks. -/
def taskRecurrenceOrbit (recurrenceType : TaskRecurrenceType)
    (recurrenceRule : JsValue) : Nat → String → Option String
  | 0, cursor => some cursor
  | Nat.succ k, cursor =>
    match getNextTaskRecurrenceDate cursor recurrenceType recurrenceRule with
    | Option.none => Option.none
    | some next => taskRecurrenceOrbit recurrenceType recurrenceRule k next

/-- Four-digit-year rendering of a calendar day, the YYYY-MM-DD shape in
which the specification states every next occurrence. -/
def ymdString (y m d : Int) : String :=
  padZeros 4 (Nat.repr y.toNat) ++ "-" ++ padZeros 2 (Nat.repr m.toNat)
    ++ "-" ++ padZeros 2 (Nat.repr d.toNat)

/-- The monthly step as the specification words it: interval months are
added to the anchor with the month overflow carried into the year, and
the day of month is preserved unless the target month is shorter, in
which case it clamps to the target month's last day. -/
def specMonthlyNext (y m d interval : Int) : String :=
  let t := 12 * y + (m - 1) + interval
  let y2 := t / 12
  let m2 := t % 12 + 1
  ymdString y2 m2 (min d (daysInMonth y2 m2))


/-! Template renderer, from src/lib/templates.ts.  The renderer is
evaluated against one reference calendar day; the ambient day produced
by the timezone formatter (used when no usable reference date is given)
enters the model as the explicit todayIso argument, so quantifying over
it covers every instant and timezone. -/


/-- Whitespace test of the trim operations (the practically occurring
subset of the JS whitespace set). -/
def jsWsChar (c : Char) : Bool :=
  c == ' ' || c == '\t' || c == '\n' || c == '\r'

/-- Trim of both ends, structurally on the character list. -/
def jsTrim (s : String) : String :=
  String.mk (((s.data.dropWhile jsWsChar).reverse.dropWhile jsWsChar).reverse)

/-- Lowercasing, structurally on the character list. -/
def lowerString (s : String) : String :=
  String.mk (s.data.map Char.toLower)

/-- Split on a single separator character, as String.prototype.split
with a one-character separator; never returns an empty list. -/
def splitOnChar (sep : Char) : List Char → List (List Char)
  | [] => [[]]
  | c :: rest =>
    match splitOnChar sep rest with
    | [] => [[]]
    | g :: gs => if c == sep then [] :: g :: gs else (c :: g) :: gs

def splitStringOnChar (sep : Char) (s : String) : List String :=
  (splitOnChar sep s.data).map String.mk

structure DateParts where
  iso : String
  year : Int
  month : Int
  dayOfMonth : Int
  dayOfWeek : Int
deriving Repr, DecidableEq

/-- Numeric value of a decimal digit string, the effect of the Number
conversions of the source on its split ISO components (which are digit
runs whenever the guarded inputs reach it). -/
def decimalStringToInt (s : String) : Int :=
  (digitsVal s.data : Int)

/-- Test isIsoDate of the source: the shape regex alone, with no
calendar validation. -/
def isIsoDateFormat (s : String) : Bool :=
  match parseYmd s with
  | some _ => true
  | Option.none => false

/-- Reference day resolution, from resolveReferenceIsoDate: a trimmed
ISO-shaped string is used as is; every other input (absent, unparseable
or instant-valued) resolves through the timezone formatter to the
ambient day, supplied here as todayIso. -/
def resolveReferenceIsoDate (referenceDate : Option String) (todayIso : String) : String :=
  match referenceDate with
  | some s => if isIsoDateFormat (jsTrim s) then jsTrim s else todayIso
  | Option.none => todayIso

/-- Split of the reference day into the parts conditions test, from
parseIsoDateParts: the components are read off the string and the
weekday comes from the epoch day of the Date.UTC normalization. -/
def parseIsoDateParts (iso : String) : DateParts :=
  let parts := splitStringOnChar '-' iso
  let year := decimalStringToInt (parts.getD 0 "")
  let month := decimalStringToInt (parts.getD 1 "")
  let dayOfMonth := decimalStringToInt (parts.getD 2 "")
  let e := jsUtcEpochDay year (month - 1) dayOfMonth
  { iso := iso, year := year, month := month, dayOfMonth := dayOfMonth,
    dayOfWeek := (e + 4) % 7 }

def shortDayName (d : Int) : String :=
  if d = 0 then "sun" else if d = 1 then "mon" else if d = 2 then "tue"
  else if d = 3 then "wed" else if d = 4 then "thu" else if d = 5 then "fri"
  else "sat"

def longDayName (d : Int) : String :=
  if d = 0 then "sunday" else if d = 1 then "monday" else if d = 2 then "tuesday"
  else if d = 3 then "wednesday" else if d = 4 then "thursday" else if d = 5 then "friday"
  else "saturday"

/-- Month name lookups return none out of range, where the source array
indexing yields undefined and every comparison against it fails. -/
def shortMonthName (i : Int) : Option String :=
  if i = 0 then some "jan" else if i = 1 then some "feb" else if i = 2 then some "mar"
  else if i = 3 then some "apr" else if i = 4 then some "may" else if i = 5 then some "jun"
  else if i = 6 then some "jul" else if i = 7 then some "aug" else if i = 8 then some "sep"
  else if i = 9 then some "oct" else if i = 10 then some "nov" else if i = 11 then some "dec"
  else Option.none

def longMonthName (i : Int) : Option String :=
  if i = 0 then some "january" else if i = 1 then some "february"
  else if i = 2 then some "march" else if i = 3 then some "april"
  else if i = 4 then some "may" else if i = 5 then some "june"
  else if i = 6 then some "july" else if i = 7 then some "august"
  else if i = 8 then some "september" else if i = 9 then some "october"
  else if i = 10 then some "november" else if i = 11 then some "december"
  else Option.none

def matchesName (value : String) (name : Option String) : Bool :=
  match name with
  | some s => value == s
  | Option.none => false

/-- One key=value clause of a condition, from the body of the loop of
evaluateCondition. -/
def clauseHolds (dp : DateParts) (check : String) : Bool :=
  let parts := splitStringOnChar '=' check
  match parts with
  | [] => false
  | keyRaw :: rest =>
    match rest.head? with
    | Option.none => false
    | some valueRaw =>
      if keyRaw = "" then false
      else
        let key := lowerString (jsTrim keyRaw)
        let value := lowerString (jsTrim valueRaw)
        if key = "day" then
          value == shortDayName dp.dayOfWeek || value == longDayName dp.dayOfWeek
            || value == intDecimal dp.dayOfWeek
        else if key = "month" then
          matchesName value (shortMonthName (dp.month - 1))
            || matchesName value (longMonthName (dp.month - 1))
            || value == intDecimal dp.month
            || value == padZeros 2 (intDecimal dp.month)
        else if key = "dom" then
          value == intDecimal dp.dayOfMonth || value == padZeros 2 (intDecimal dp.dayOfMonth)
        else if key = "year" then
          value == intDecimal dp.year
        else if key = "date" then
          value == lowerString dp.iso
        else false

/-- The clauses of a condition: the ampersand split, trimmed, with
empty entries dropped. -/
def conditionClauses (condition : String) : List String :=
  ((splitStringOnChar '&' condition).map jsTrim).filter (fun s => s ≠ "")

/-- Condition evaluation, from evaluateCondition: an empty clause list
is false, and otherwise every clause must hold. -/
def evaluateCondition (condition : String) (dp : DateParts) : Bool :=
  let checks := conditionClauses condition
  if checks.isEmpty then false
  else checks.all (clauseHolds dp)

/-- Case-insensitive literal match of a lowercase pattern at the head
of the input; returns the remaining input. -/
def matchHeadCI : List Char → List Char → Option (List Char)
  | [], rest => some rest
  | p :: ps, c :: cs => if c.toLower == p then matchHeadCI ps cs else Option.none
  | _ :: _, [] => Option.none

def openIfPat : List Char := "\x7b\x7bif:".data
def closeIfPat : List Char := "\x7b\x7b/if\x7d\x7d".data
def openDatePat : List Char := "\x7b\x7bdate:".data

/-- Search for the first closing delimiter, returning the body before
it and the input after it; models the lazy body of the block regex. -/
def findCloseIf : List Char → Option (List Char × List Char)
  | [] => Option.none
  | c :: rest =>
    match matchHeadCI closeIfPat (c :: rest) with
    | some r2 => some ([], r2)
    | Option.none => (findCloseIf rest).map (fun p => (c :: p.1, p.2))

/-- Match of one full conditional block at the head of the input:
opening delimiter, nonempty brace-free condition, double closing brace,
lazy body, closing delimiter.  Returns condition, body and the rest. -/
def tryIfBlock (s : List Char) : Option (List Char × List Char × List Char) :=
  match matchHeadCI openIfPat s with
  | Option.none => Option.none
  | some r1 =>
    let p := r1.span (fun c => c != '\x7d')
    if p.1 = [] then Option.none
    else
      match p.2 with
      | '\x7d' :: '\x7d' :: r3 =>
        match findCloseIf r3 with
        | some (body, r4) => some (p.1, body, r4)
        | Option.none => Option.none
      | _ => Option.none

/-- One global replacement pass of the conditional-block regex: the
scanner advances one character on failure and continues after the match
on success, with the replacement not rescanned in the same pass.  Fuel
bounds the recursion and the entry point supplies the input length. -/
def condPassGo (dp : DateParts) : Nat → List Char → List Char
  | 0, s => s
  | Nat.succ fuel, s =>
    match s with
    | [] => []
    | c :: rest =>
      match tryIfBlock (c :: rest) with
      | some (cond, body, r4) =>
        (if evaluateCondition (String.mk cond) dp then body else []) ++ condPassGo dp fuel r4
      | Option.none => c :: condPassGo dp fuel rest

def condPass (dp : DateParts) (s : List Char) : List Char :=
  condPassGo dp s.length s

/-- The bounded fixed-point loop of renderConditionalBlocks: up to 16
passes, stopping early when a pass changes nothing. -/
def renderCondGo (dp : DateParts) : Nat → List Char → List Char
  | 0, s => s
  | Nat.succ k, s =>
    let next := condPass dp s
    if next = s then s else renderCondGo dp k next

def renderConditionalBlocks (input : String) (dp : DateParts) : String :=
  String.mk (renderCondGo dp 16 input.data)

/-- Last two characters of a string, the slice(-2) of the source. -/
def sliceLast2 (s : String) : String :=
  String.mk (s.data.drop (s.data.length - 2))

/-- Case-sensitive literal match at the head of the input. -/
def matchHead : List Char → List Char → Option (List Char)
  | [], rest => some rest
  | p :: ps, c :: cs => if c == p then matchHead ps cs else Option.none
  | _ :: _, [] => Option.none

/-- Ordered token table of formatIsoDate; entries with none (month
names out of range) fall back to the literal token text, modelling the
nullish coalescing of the source. -/
def formatTokenMap (year month day dayOfWeek : Int) : List (List Char × Option String) :=
  [("YYYY".data, some (intDecimal year)),
   ("YY".data, some (sliceLast2 (intDecimal year))),
   ("MMMM".data, longMonthName (month - 1)),
   ("MMM".data, shortMonthName (month - 1)),
   ("MM".data, some (padZeros 2 (intDecimal month))),
   ("M".data, some (intDecimal month)),
   ("DD".data, some (padZeros 2 (intDecimal day))),
   ("D".data, some (intDecimal day)),
   ("dddd".data, some (longDayName dayOfWeek)),
   ("ddd".data, some (shortDayName dayOfWeek))]

/-- First matching token of the alternation at the head of the input. -/
def tryFormatToken : List (List Char × Option String) → List Char → Option (String × List Char)
  | [], _ => Option.none
  | (pat, rep) :: more, s =>
    match matchHead pat s with
    | some r => some (rep.getD (String.mk pat), r)
    | Option.none => tryFormatToken more s

/-- Global replacement pass of the format-code alternation. -/
def formatPassGo (tm : List (List Char × Option String)) : Nat → List Char → List Char
  | 0, s => s
  | Nat.succ fuel, s =>
    match s with
    | [] => []
    | c :: rest =>
      match tryFormatToken tm (c :: rest) with
      | some (rep, r2) => rep.data ++ formatPassGo tm fuel r2
      | Option.none => c :: formatPassGo tm fuel rest

/-- Date formatting, from formatIsoDate of the source: the components
are read off the ISO string again and each recognized format code is
substituted independently. -/
def formatIsoDate (iso format : String) : String :=
  let parts := splitStringOnChar '-' iso
  let year := decimalStringToInt (parts.getD 0 "")
  let month := decimalStringToInt (parts.getD 1 "")
  let day := decimalStringToInt (parts.getD 2 "")
  let e := jsUtcEpochDay year (month - 1) day
  String.mk (formatPassGo (formatTokenMap year month day ((e + 4) % 7))
    format.data.length format.data)

/-- Match of one date token at the head of the input: returns the raw
format text and the rest. -/
def tryDateToken (s : List Char) : Option (List Char × List Char) :=
  match matchHeadCI openDatePat s with
  | Option.none => Option.none
  | some r1 =>
    let p := r1.span (fun c => c != '\x7d')
    if p.1 = [] then Option.none
    else
      match p.2 with
      | '\x7d' :: '\x7d' :: r3 => some (p.1, r3)
      | _ => Option.none

/-- Global replacement pass of the date-token regex: an all-whitespace
format falls back to the reference day itself. -/
def datePassGo (referenceIso : String) : Nat → List Char → List Char
  | 0, s => s
  | Nat.succ fuel, s =>
    match s with
    | [] => []
    | c :: rest =>
      match tryDateToken (c :: rest) with
      | some (fmtRaw, r2) =>
        let format := jsTrim (String.mk fmtRaw)
        (if format = "" then referenceIso else formatIsoDate referenceIso format).data
          ++ datePassGo referenceIso fuel r2
      | Option.none => c :: datePassGo referenceIso fuel rest

/-- Template rendering, from renderTemplate of the source: a missing or
empty input renders to the empty string; otherwise conditional blocks
are resolved against the reference day and date tokens are expanded. -/
def renderTemplate (input : Option String) (referenceDate : Option String)
    (todayIso : String) : String :=
  match input with
  | Option.none => ""
  | some s =>
    if s = "" then ""
    else
      let referenceIso := resolveReferenceIsoDate referenceDate todayIso
      let dp := parseIsoDateParts referenceIso
      let wc := (renderConditionalBlocks s dp).data
      String.mk (datePassGo referenceIso wc.length wc)

/-! Dispatch rollover orchestrator, from src/mcp-server/tools/dispatches.ts.
The relational store is modelled as in-memory tables; row ids are opaque
unique strings in the source and are modelled as naturals drawn from a
counter, selects model the underlying queries, and each tool returns the
new store together with its result, errors standing for the thrown
exceptions (every throw in the source happens before any write of that
tool, so the store is returned unchanged on error). -/

structure DispatchRow where
  id : Nat
  userId : String
  date : String
  summary : Option String
  finalized : Bool
  createdAt : String
  updatedAt : String
deriving Repr, DecidableEq

structure TaskRow where
  id : Nat
  userId : String
  status : String
  deletedAt : Option String
deriving Repr, DecidableEq

structure Db where
  dispatches : List DispatchRow
  dispatchTasks : List (Nat × Nat)
  tasks : List TaskRow
  nextDispatchId : Nat
deriving Repr, DecidableEq

/-- Day increment used by the rollover, from addDaysToIsoDate of
src/lib/timezone.ts: the components are read off the string, loosely
range-checked, and the day offset is normalized by Date.UTC and
rendered back; inputs failing the checks are returned unchanged. -/
def addDaysToIsoDate (date : String) (days : Int) : String :=
  let parts := splitStringOnChar '-' date
  let getPart := fun (i : Nat) => (parts.get? i).getD ""
  if (getPart 0).data ≠ [] ∧ (getPart 0).data.all Char.isDigit
      ∧ (getPart 1).data ≠ [] ∧ (getPart 1).data.all Char.isDigit
      ∧ (getPart 2).data ≠ [] ∧ (getPart 2).data.all Char.isDigit then
    let year := decimalStringToInt (getPart 0)
    let month := decimalStringToInt (getPart 1)
    let day := decimalStringToInt (getPart 2)
    if month < 1 ∨ 12 < month ∨ day < 1 ∨ 31 < day then date
    else toIsoDate (jsUtcEpochDay year (month - 1) day + days)
  else date

/-- Next calendar day, from nextDate of the dispatch tools. -/
def nextDate (date : String) : String := addDaysToIsoDate date 1

def findDispatch (db : Db) (userId : String) (date : String) : Option DispatchRow :=
  db.dispatches.find? (fun r => r.userId == userId && r.date == date)

/-- Lazy per-day dispatch creation, from getOrCreateDispatch: return
the existing row for the pair or insert a fresh open one. -/
def getOrCreateDispatch (db : Db) (userId : String) (date : String) (now : String) :
    DispatchRow × Db :=
  match findDispatch db userId date with
  | some existing => (existing, db)
  | Option.none =>
    let created : DispatchRow :=
      { id := db.nextDispatchId, userId := userId, date := date, summary := Option.none,
        finalized := false, createdAt := now, updatedAt := now }
    (created, { db with dispatches := db.dispatches ++ [created],
                        nextDispatchId := db.nextDispatchId + 1 })

/-- Tool link-task-to-dispatch: requires an open dispatch of the caller
and a live task of the caller, and inserts the link only when the pair
is not already present. -/
def linkTaskToDispatch (db : Db) (userId : String) (dispatchId taskId : Nat) :
    Db × Except String Unit :=
  match db.dispatches.find? (fun r => r.id == dispatchId && r.userId == userId) with
  | Option.none => (db, .error "Dispatch not found.")
  | some dispatch =>
    if dispatch.finalized then (db, .error "Cannot modify a finalized dispatch.")
    else
      match db.tasks.find? (fun t =>
          t.id == taskId && t.userId == userId && t.deletedAt == Option.none) with
      | Option.none => (db, .error "Task not found.")
      | some task =>
        match db.dispatchTasks.find? (fun p => p.1 == dispatch.id && p.2 == task.id) with
        | some _ => (db, .ok ())
        | Option.none =>
          ({ db with dispatchTasks := db.dispatchTasks ++ [(dispatch.id, task.id)] }, .ok ())

/-- Tool unlink-task-from-dispatch: requires an open dispatch of the
caller and deletes any link rows of the pair. -/
def unlinkTaskFromDispatch (db : Db) (userId : String) (dispatchId taskId : Nat) :
    Db × Except String Unit :=
  match db.dispatches.find? (fun r => r.id == dispatchId && r.userId == userId) with
  | Option.none => (db, .error "Dispatch not found.")
  | some dispatch =>
    if dispatch.finalized then (db, .error "Cannot modify a finalized dispatch.")
    else
      ({ db with dispatchTasks :=
          db.dispatchTasks.filter (fun p => ¬ (p.1 == dispatch.id && p.2 == taskId)) },
       .ok ())

/-- Join of the links of a dispatch with the live tasks, from the
select of complete-dispatch: each link row contributes the matching
non-deleted task row. -/
def linkedTaskStatuses (db : Db) (dispatchId : Nat) : List (Nat × String) :=
  (db.dispatchTasks.filter (fun p => p.1 == dispatchId)).filterMap (fun p =>
    (db.tasks.find? (fun t => t.id == p.2 && t.deletedAt == Option.none)).map
      (fun t => (t.id, t.status)))

/-- The ids complete-dispatch rolls over: linked live tasks whose
status is not done. -/
def unfinishedLinkedTaskIds (db : Db) (dispatchId : Nat) : List Nat :=
  ((linkedTaskStatuses db dispatchId).filter (fun r => r.2 != "done")).map (fun r => r.1)

/-- Idempotent linking of the unfinished tasks into the next dispatch,
from the rollover loop of complete-dispatch. -/
def linkAllTasks (dispatchId : Nat) : List Nat → Db → Db
  | [], db => db
  | taskId :: rest, db =>
    match db.dispatchTasks.find? (fun p => p.1 == dispatchId && p.2 == taskId) with
    | some _ => linkAllTasks dispatchId rest db
    | Option.none =>
      linkAllTasks dispatchId rest
        { db with dispatchTasks := db.dispatchTasks ++ [(dispatchId, taskId)] }

/-- Tool complete-dispatch: fail on a missing or already finalized
dispatch; otherwise partition the linked live tasks, finalize, and when
unfinished tasks exist link them into the dispatch of the next day,
creating it if needed.  Returns the finalized row, the rollover count
and the next dispatch id (null when nothing rolled over). -/
def completeDispatch (db : Db) (userId : String) (dispatchId : Nat) (now : String) :
    Db × Except String (DispatchRow × Nat × Option Nat) :=
  match db.dispatches.find? (fun r => r.id == dispatchId && r.userId == userId) with
  | Option.none => (db, .error "Dispatch not found.")
  | some dispatch =>
    if dispatch.finalized then (db, .error "Dispatch is already finalized.")
    else
      let linked := linkedTaskStatuses db dispatch.id
      let unfinishedTaskIds := (linked.filter (fun r => r.2 != "done")).map (fun r => r.1)
      let finalizedRow := { dispatch with finalized := true, updatedAt := now }
      let db1 := { db with dispatches := db.dispatches.map (fun r =>
          if r.id == dispatch.id then { r with finalized := true, updatedAt := now } else r) }
      if unfinishedTaskIds.isEmpty then
        (db1, .ok (finalizedRow, 0, Option.none))
      else
        let next := getOrCreateDispatch db1 userId (nextDate dispatch.date) now
        let db3 := linkAllTasks next.1.id unfinishedTaskIds next.2
        (db3, .ok (finalizedRow, unfinishedTaskIds.length, some next.1.id))

/-! Task write surfaces relevant to the recurrence-behavior invariant:
the MCP tools create-task and update-task of the task tool module, and
the REST route PUT /api/tasks/[id].  Only the recurrence-relevant slice
of a task is modelled; the remaining columns (title, description,
status, priority, project) are validated and written independently of
it in the source. -/

inductive TaskRecurrenceBehavior where
  | after_completion
  | duplicate_on_schedule
deriving DecidableEq, Repr

structure TaskRecurrenceFields where
  dueDate : Option String
  recurrenceType : TaskRecurrenceType
  recurrenceBehavior : TaskRecurrenceBehavior
  recurrenceRule : Option String
deriving DecidableEq, Repr

/-- Arguments of the MCP create-task tool (recurrence slice); absent
optional fields are none, and the recurrenceRule argument carries the
runtime value the schema validated (vundefined when absent). -/
structure McpCreateTaskArgs where
  dueDate : Option String
  recurrenceType : Option TaskRecurrenceType
  recurrenceBehavior : Option TaskRecurrenceBehavior
  recurrenceRule : JsValue

/-- Tool create-task, from the task tool module: the behavior collapses
to after-completion whenever the type is none, a custom type requires a
parsable rule, a rule is rejected for any other type, and the
duplicate-on-schedule behavior requires a nonempty due date. -/
def mcpCreateTask (args : McpCreateTaskArgs) : Except String TaskRecurrenceFields :=
  let recurrenceType := args.recurrenceType.getD .none
  let recurrenceBehavior :=
    if recurrenceType = .none then .after_completion
    else args.recurrenceBehavior.getD .after_completion
  match
    (if recurrenceType = .custom then
      match parseTaskCustomRecurrenceRule args.recurrenceRule with
      | some parsed => Except.ok (some (serializeTaskCustomRecurrenceRule parsed))
      | Option.none => Except.error
          "Custom recurrence requires recurrenceRule with interval (1-365) and unit (day|week|month)."
    else if ¬ isNullish args.recurrenceRule then
      Except.error "recurrenceRule can only be set when recurrenceType is custom."
    else Except.ok Option.none : Except String (Option String)) with
  | .error e => .error e
  | .ok recurrenceRule =>
    if recurrenceType ≠ .none ∧ recurrenceBehavior = .duplicate_on_schedule
        ∧ (jsTrim (args.dueDate.getD "")).data.length = 0 then
      .error "dueDate is required when recurrenceBehavior is duplicate_on_schedule."
    else
      .ok { dueDate := args.dueDate, recurrenceType := recurrenceType,
            recurrenceBehavior := recurrenceBehavior, recurrenceRule := recurrenceRule }

/-- Arguments of the MCP update-task tool (recurrence slice); a some
value models a present property. -/
structure McpUpdateTaskArgs where
  dueDate : Option (Option String)
  recurrenceType : Option TaskRecurrenceType
  recurrenceBehavior : Option TaskRecurrenceBehavior
  recurrenceRule : Option JsValue

/-- Tool update-task, recurrence slice: merges the present arguments
over the stored fields, normalizes the behavior to after-completion
when the resulting type is none, and writes the behavior column only
when the behavior or type argument is present. -/
def mcpUpdateTask (existing : TaskRecurrenceFields) (args : McpUpdateTaskArgs) :
    Except String TaskRecurrenceFields :=
  let hasRecurrenceType := args.recurrenceType.isSome
  let hasRecurrenceBehavior := args.recurrenceBehavior.isSome
  let hasRecurrenceRule := args.recurrenceRule.isSome
  let nextRecurrenceType := args.recurrenceType.getD existing.recurrenceType
  let nextRecurrenceBehavior0 := args.recurrenceBehavior.getD existing.recurrenceBehavior
  let nextDueDate := args.dueDate.getD existing.dueDate
  match
    (match args.recurrenceRule with
    | some .vnull => Except.ok Option.none
    | some v =>
      match parseTaskCustomRecurrenceRule v with
      | some parsed => Except.ok (some (serializeTaskCustomRecurrenceRule parsed))
      | Option.none => Except.error
          "recurrenceRule must include interval (1-365) and unit (day|week|month)."
    | Option.none => Except.ok existing.recurrenceRule : Except String (Option String)) with
  | .error e => .error e
  | .ok nextRecurrenceRule0 =>
    let checkedRule : Except String (Option String) :=
      if nextRecurrenceType = .custom then
        if nextRecurrenceRule0 = Option.none then
          .error "recurrenceRule is required when recurrenceType is custom."
        else .ok nextRecurrenceRule0
      else
        if hasRecurrenceRule && (match args.recurrenceRule with
            | some v => ! isNullish v
            | Option.none => false) then
          .error "recurrenceRule can only be set when recurrenceType is custom."
        else if hasRecurrenceType then .ok Option.none
        else .ok nextRecurrenceRule0
    match checkedRule with
    | .error e => .error e
    | .ok nextRecurrenceRule =>
      let nextRecurrenceBehavior :=
        if nextRecurrenceType = .none then .after_completion else nextRecurrenceBehavior0
      if nextRecurrenceType ≠ .none ∧ nextRecurrenceBehavior = .duplicate_on_schedule
          ∧ nextDueDate = Option.none then
        .error "dueDate is required when recurrenceBehavior is duplicate_on_schedule."
      else
        .ok { dueDate := if args.dueDate.isSome then nextDueDate else existing.dueDate,
              recurrenceType :=
                if hasRecurrenceType then nextRecurrenceType else existing.recurrenceType,
              recurrenceBehavior :=
                if hasRecurrenceBehavior ∨ hasRecurrenceType then nextRecurrenceBehavior
                else existing.recurrenceBehavior,
              recurrenceRule :=
                if hasRecurrenceRule ∨ hasRecurrenceType then nextRecurrenceRule
                else existing.recurrenceRule }

/-- Body of the REST route PUT /api/tasks/[id], recurrence slice; the
route reads no recurrenceBehavior field at all. -/
structure RestPutTaskBody where
  dueDate : Option (Option String)
  recurrenceType : Option TaskRecurrenceType
  recurrenceRule : Option JsValue

/-- Route PUT /api/tasks/[id], recurrence slice, from
src/app/api/tasks/[id]/route.ts: merges type and rule as the MCP update
does but never touches the stored recurrence behavior. -/
def restPutTask (existing : TaskRecurrenceFields) (body : RestPutTaskBody) :
    Except String TaskRecurrenceFields :=
  let hasRecurrenceType := body.recurrenceType.isSome
  let hasRecurrenceRule := body.recurrenceRule.isSome
  let nextRecurrenceType := body.recurrenceType.getD existing.recurrenceType
  match
    (match body.recurrenceRule with
    | some .vnull => Except.ok Option.none
    | some v =>
      match parseTaskCustomRecurrenceRule v with
      | some parsed => Except.ok (some (serializeTaskCustomRecurrenceRule parsed))
      | Option.none => Except.error
          "recurrenceRule must include interval (1-365) and unit (day|week|month)"
    | Option.none => Except.ok existing.recurrenceRule : Except String (Option String)) with
  | .error e => .error e
  | .ok nextRecurrenceRule0 =>
    let checkedRule : Except String (Option String) :=
      if nextRecurrenceType = .custom then
        if nextRecurrenceRule0 = Option.none then
          .error "recurrenceRule is required when recurrenceType is custom"
        else .ok nextRecurrenceRule0
      else
        if hasRecurrenceRule && (match body.recurrenceRule with
            | some v => ! isNullish v
            | Option.none => false) then
          .error "recurrenceRule can only be set when recurrenceType is custom"
        else if hasRecurrenceType then .ok Option.none
        else .ok nextRecurrenceRule0
    match checkedRule with
    | .error e => .error e
    | .ok nextRecurrenceRule =>
      .ok { dueDate := body.dueDate.getD existing.dueDate,
            recurrenceType :=
              if hasRecurrenceType then nextRecurrenceType else existing.recurrenceType,
            recurrenceBehavior := existing.recurrenceBehavior,
            recurrenceRule :=
              if hasRecurrenceRule ∨ hasRecurrenceType then nextRecurrenceRule
              else existing.recurrenceRule }

/-! Theorems for the claims. -/

/-- Claim C8: for every recurrence type and rule, a malformed anchor
string (not of YYYY-MM-DD shape or not a real calendar day) makes
getNextTaskRecurrenceDate return null, and getNextTaskRecurrenceOnOrAfter
returns null when its anchor or its target is malformed in this sense. -/
theorem claim_C8 (t : TaskRecurrenceType) (rule : JsValue) (anchor target : String) :
    (parseIsoDate anchor = Option.none →
      getNextTaskRecurrenceDate anchor t rule = Option.none
      ∧ getNextTaskRecurrenceOnOrAfter anchor t rule target = Option.none)
    ∧ (parseIsoDate target = Option.none →
      getNextTaskRecurrenceOnOrAfter anchor t rule target = Option.none) := by
  constructor
  · intro h
    constructor
    · unfold getNextTaskRecurrenceDate
      cases hr : getResolvedTaskRecurrenceRule t rule with
      | none => rfl
      | some r => rw [h]
    · unfold getNextTaskRecurrenceOnOrAfter
      cases ht : parseIsoDate target with
      | none => rfl
      | some T =>
        show taskRecurrenceSearchLoop t rule T 4000 anchor = Option.none
        rw [show (4000 : Nat) = Nat.succ 3999 from rfl, taskRecurrenceSearchLoop, h]
  · intro h
    unfold getNextTaskRecurrenceOnOrAfter
    rw [h]

/-- Witness for claim C8 at the impossible calendar day of the claim
text and at a malformed month. -/
theorem claim_C8_witness :
    getNextTaskRecurrenceDate "2024-02-30" TaskRecurrenceType.daily JsValue.vnull = Option.none
    ∧ getNextTaskRecurrenceOnOrAfter "2024-02-30" TaskRecurrenceType.daily JsValue.vnull
        "2024-03-01" = Option.none
    ∧ getNextTaskRecurrenceOnOrAfter "2024-03-01" TaskRecurrenceType.daily JsValue.vnull
        "2024-13-01" = Option.none :=
  ⟨((claim_C8 TaskRecurrenceType.daily JsValue.vnull "2024-02-30" "2024-03-01").1
      (by decide)).1,
   ((claim_C8 TaskRecurrenceType.daily JsValue.vnull "2024-02-30" "2024-03-01").1
      (by decide)).2,
   (claim_C8 TaskRecurrenceType.daily JsValue.vnull "2024-03-01" "2024-13-01").2
      (by decide)⟩

/-- Claim C10: with a valid anchor on or after the valid target, the
bounded search returns the anchor before ever consulting the rule, so a
null-resolving rule (type none, or custom with a malformed rule) does
not make the result null here. -/
theorem claim_C10 (t : TaskRecurrenceType) (rule : JsValue) (anchor target : String)
    (A T : Int) (ha : parseIsoDate anchor = some A) (ht : parseIsoDate target = some T)
    (hle : T ≤ A) (_hnull : getResolvedTaskRecurrenceRule t rule = Option.none) :
    getNextTaskRecurrenceOnOrAfter anchor t rule target = some anchor := by
  unfold getNextTaskRecurrenceOnOrAfter
  rw [ht]
  show taskRecurrenceSearchLoop t rule T 4000 anchor = some anchor
  rw [show (4000 : Nat) = Nat.succ 3999 from rfl, taskRecurrenceSearchLoop, ha]
  simp [hle]

/-- Witness for claim C10: recurrence type none with anchor equal to
the target. -/
theorem claim_C10_witness :
    getNextTaskRecurrenceOnOrAfter "2024-05-05" TaskRecurrenceType.none JsValue.vnull
      "2024-05-05" = some "2024-05-05" :=
  claim_C10 TaskRecurrenceType.none JsValue.vnull "2024-05-05" "2024-05-05"
    (epochDayOfYmd 2024 5 5) (epochDayOfYmd 2024 5 5) (by decide) (by decide)
    (le_refl _) rfl

theorem condPassGo_id (dp : DateParts) (fuel : Nat) (l : List Char)
    (h : ∀ n, n < l.length → tryIfBlock (l.drop n) = Option.none) :
    condPassGo dp fuel l = l := by
  induction fuel generalizing l with
  | zero => rfl
  | succ fuel ih =>
    match l with
    | [] => rfl
    | c :: rest =>
      rw [condPassGo]
      have h0 := h 0 (by simp)
      simp only [List.drop_zero] at h0
      rw [h0]
      rw [ih rest (fun n hn => by
        have hd := h (n + 1) (by simp; omega)
        simpa using hd)]

theorem datePassGo_id (referenceIso : String) (fuel : Nat) (l : List Char)
    (h : ∀ n, n < l.length → tryDateToken (l.drop n) = Option.none) :
    datePassGo referenceIso fuel l = l := by
  induction fuel generalizing l with
  | zero => rfl
  | succ fuel ih =>
    match l with
    | [] => rfl
    | c :: rest =>
      rw [datePassGo]
      have h0 := h 0 (by simp)
      simp only [List.drop_zero] at h0
      rw [h0]
      rw [ih rest (fun n hn => by
        have hd := h (n + 1) (by simp; omega)
        simpa using hd)]

/-- Claim C7: rendering is a total function that never throws; a
missing or empty input renders to the empty string, and input in which
no position starts a conditional block or a date token is returned
verbatim. -/
theorem claim_C7 (referenceDate : Option String) (todayIso : String) :
    renderTemplate Option.none referenceDate todayIso = ""
    ∧ renderTemplate (some "") referenceDate todayIso = ""
    ∧ ∀ s : String,
        (∀ n, n < s.data.length → tryIfBlock (s.data.drop n) = Option.none) →
        (∀ n, n < s.data.length → tryDateToken (s.data.drop n) = Option.none) →
        renderTemplate (some s) referenceDate todayIso = s := by
  refine ⟨rfl, rfl, ?_⟩
  intro s hIf hDate
  by_cases hs : s = ""
  · subst hs
    rfl
  · show (if s = "" then ""
      else
        let referenceIso := resolveReferenceIsoDate referenceDate todayIso
        let dp := parseIsoDateParts referenceIso
        let wc := (renderConditionalBlocks s dp).data
        String.mk (datePassGo referenceIso wc.length wc)) = s
    rw [if_neg hs]
    show (let wc := (renderConditionalBlocks s
        (parseIsoDateParts (resolveReferenceIsoDate referenceDate todayIso))).data
      String.mk (datePassGo (resolveReferenceIsoDate referenceDate todayIso) wc.length wc)) = s
    have hcond : renderConditionalBlocks s
        (parseIsoDateParts (resolveReferenceIsoDate referenceDate todayIso)) = s := by
      unfold renderConditionalBlocks
      rw [show (16 : Nat) = Nat.succ 15 from rfl, renderCondGo]
      have hpass : condPass (parseIsoDateParts (resolveReferenceIsoDate referenceDate todayIso))
          s.data = s.data := by
        unfold condPass
        exact condPassGo_id _ _ _ hIf
      rw [hpass]
      simp
    simp only [hcond]
    rw [datePassGo_id _ _ _ hDate]

/-- Witness for claim C7: unknown braced tokens and plain text are
preserved verbatim. -/
theorem claim_C7_witness :
    renderTemplate (some "\x7b\x7bfoo\x7d\x7d plain \x7b\x7bif:day=mon no close")
      (some "2026-02-21") "1970-01-01" = "\x7b\x7bfoo\x7d\x7d plain \x7b\x7bif:day=mon no close" :=
  (claim_C7 (some "2026-02-21") "1970-01-01").2.2
    "\x7b\x7bfoo\x7d\x7d plain \x7b\x7bif:day=mon no close" (by decide) (by decide)

theorem char_toNat_ofNat_valid (n : Nat) (h : n.isValidChar) : (Char.ofNat n).toNat = n := by
  unfold Char.ofNat
  rw [dif_pos h]
  rfl

theorem toLower_eq_brace (c : Char) (h : c.toLower = '\x7b') : c = '\x7b' := by
  unfold Char.toLower at h
  simp only [] at h
  by_cases hc : c.toNat ≥ 65 ∧ c.toNat ≤ 90
  · rw [if_pos hc] at h
    have hv : (c.toNat + 32).isValidChar := by
      left
      omega
    have h1 := char_toNat_ofNat_valid (c.toNat + 32) hv
    have h3 := congrArg Char.toNat h
    rw [h1] at h3
    have h2 : ('\x7b' : Char).toNat = 123 := by decide
    rw [h2] at h3
    omega
  · rw [if_neg hc] at h
    exact h

theorem openIfPat_eq : openIfPat = '\x7b' :: '\x7b' :: 'i' :: 'f' :: ':' :: [] := rfl

theorem tryIfBlock_fail_head (c : Char) (rest : List Char) (hc : c ≠ '\x7b') :
    tryIfBlock (c :: rest) = Option.none := by
  unfold tryIfBlock
  rw [openIfPat_eq]
  have hm : matchHeadCI ('\x7b' :: '\x7b' :: 'i' :: 'f' :: ':' :: []) (c :: rest)
      = Option.none := by
    rw [matchHeadCI]
    rw [if_neg (by
      simp only [beq_iff_eq]
      exact fun h => hc (toLower_eq_brace c h))]
  rw [hm]

theorem tryDateToken_fail_head (c : Char) (rest : List Char) (hc : c ≠ '\x7b') :
    tryDateToken (c :: rest) = Option.none := by
  unfold tryDateToken
  have hpat : openDatePat = '\x7b' :: '\x7b' :: 'd' :: 'a' :: 't' :: 'e' :: ':' :: [] := rfl
  rw [hpat]
  have hm : matchHeadCI ('\x7b' :: '\x7b' :: 'd' :: 'a' :: 't' :: 'e' :: ':' :: []) (c :: rest)
      = Option.none := by
    rw [matchHeadCI]
    rw [if_neg (by
      simp only [beq_iff_eq]
      exact fun h => hc (toLower_eq_brace c h))]
  rw [hm]

theorem spanLoopNotBrace (cond X acc : List Char) (h : ∀ c ∈ cond, c ≠ '\x7d') :
    List.span.loop (fun c => c != '\x7d') (cond ++ '\x7d' :: X) acc
      = (acc.reverse ++ cond, '\x7d' :: X) := by
  induction cond generalizing acc with
  | nil =>
    simp only [List.nil_append, List.span.loop]
    simp
  | cons c cs ih =>
    have hc : c ≠ '\x7d' := h c (by simp)
    have hcs : ∀ x ∈ cs, x ≠ '\x7d' := fun x hx => h x (by simp [hx])
    simp only [List.cons_append, List.span.loop]
    have hp : (c != '\x7d') = true := by simp [hc]
    rw [hp]
    simp only [List.append_eq]
    rw [ih (c :: acc) hcs]
    simp

theorem spanNotBrace (cond X : List Char) (h : ∀ c ∈ cond, c ≠ '\x7d') :
    List.span (fun c => c != '\x7d') (cond ++ '\x7d' :: X) = (cond, '\x7d' :: X) := by
  unfold List.span
  rw [spanLoopNotBrace cond X [] h]
  simp

theorem findCloseIf_at (body post : List Char) (h : ∀ c ∈ body, c ≠ '\x7b') :
    findCloseIf (body ++ '\x7b' :: '\x7b' :: '/' :: 'i' :: 'f' :: '\x7d' :: '\x7d' :: post)
      = some (body, post) := by
  induction body with
  | nil =>
    simp only [List.nil_append]
    rw [findCloseIf]
    have hm : matchHeadCI closeIfPat
        ('\x7b' :: '\x7b' :: '/' :: 'i' :: 'f' :: '\x7d' :: '\x7d' :: post) = some post := rfl
    rw [hm]
  | cons c cs ih =>
    have hc : c ≠ '\x7b' := h c (by simp)
    have hcs : ∀ x ∈ cs, x ≠ '\x7b' := fun x hx => h x (by simp [hx])
    simp only [List.cons_append]
    rw [findCloseIf]
    have hm : matchHeadCI closeIfPat
        (c :: (cs ++ '\x7b' :: '\x7b' :: '/' :: 'i' :: 'f' :: '\x7d' :: '\x7d' :: post))
        = Option.none := by
      have hpat : closeIfPat = '\x7b' :: '\x7b' :: '/' :: 'i' :: 'f' :: '\x7d' :: '\x7d' :: [] :=
        rfl
      rw [hpat, matchHeadCI]
      rw [if_neg (by
        simp only [beq_iff_eq]
        exact fun hh => hc (toLower_eq_brace c hh))]
    rw [hm, ih hcs]
    rfl

theorem tryIfBlock_at_block (cond body post : List Char)
    (hne : cond ≠ []) (hnb : ∀ c ∈ cond, c ≠ '\x7d') (hbody : ∀ c ∈ body, c ≠ '\x7b') :
    tryIfBlock ('\x7b' :: '\x7b' :: 'i' :: 'f' :: ':' ::
        (cond ++ '\x7d' :: '\x7d' ::
          (body ++ '\x7b' :: '\x7b' :: '/' :: 'i' :: 'f' :: '\x7d' :: '\x7d' :: post)))
      = some (cond, body, post) := by
  unfold tryIfBlock
  have hm : matchHeadCI openIfPat ('\x7b' :: '\x7b' :: 'i' :: 'f' :: ':' ::
      (cond ++ '\x7d' :: '\x7d' ::
        (body ++ '\x7b' :: '\x7b' :: '/' :: 'i' :: 'f' :: '\x7d' :: '\x7d' :: post)))
      = some (cond ++ '\x7d' :: '\x7d' ::
        (body ++ '\x7b' :: '\x7b' :: '/' :: 'i' :: 'f' :: '\x7d' :: '\x7d' :: post)) := rfl
  rw [hm]
  have hspan := spanNotBrace cond ('\x7d' ::
    (body ++ '\x7b' :: '\x7b' :: '/' :: 'i' :: 'f' :: '\x7d' :: '\x7d' :: post)) hnb
  simp only [hspan]
  rw [if_neg (by simpa using hne)]
  rw [findCloseIf_at body post hbody]

theorem tryIf_none_of_noBrace (l : List Char) (h : ∀ c ∈ l, c ≠ '\x7b') :
    ∀ n, n < l.length → tryIfBlock (l.drop n) = Option.none := by
  intro n hn
  rw [List.drop_eq_getElem_cons hn]
  exact tryIfBlock_fail_head _ _ (h _ (List.getElem_mem hn))

theorem tryDate_none_of_noBrace (l : List Char) (h : ∀ c ∈ l, c ≠ '\x7b') :
    ∀ n, n < l.length → tryDateToken (l.drop n) = Option.none := by
  intro n hn
  rw [List.drop_eq_getElem_cons hn]
  exact tryDateToken_fail_head _ _ (h _ (List.getElem_mem hn))

theorem condPassGo_pre (dp : DateParts) (pre l : List Char) (fuel : Nat)
    (h : ∀ c ∈ pre, c ≠ '\x7b') :
    condPassGo dp (pre.length + fuel) (pre ++ l) = pre ++ condPassGo dp fuel l := by
  induction pre with
  | nil => simp
  | cons c cs ih =>
    have hc : c ≠ '\x7b' := h c (by simp)
    have hcs : ∀ x ∈ cs, x ≠ '\x7b' := fun x hx => h x (by simp [hx])
    have hlen : (c :: cs).length + fuel = Nat.succ (cs.length + fuel) := by
      simp [List.length_cons]
      omega
    rw [hlen]
    simp only [List.cons_append]
    rw [condPassGo]
    rw [tryIfBlock_fail_head c (cs ++ l) hc]
    rw [ih hcs]

theorem condPassGo_at_block (dp : DateParts) (f : Nat) (cond body post : List Char)
    (hne : cond ≠ []) (hnb : ∀ c ∈ cond, c ≠ '\x7d') (hbody : ∀ c ∈ body, c ≠ '\x7b')
    (hfalse : evaluateCondition (String.mk cond) dp = false)
    (hpost : ∀ c ∈ post, c ≠ '\x7b') :
    condPassGo dp (Nat.succ f) ('\x7b' :: '\x7b' :: 'i' :: 'f' :: ':' ::
        (cond ++ '\x7d' :: '\x7d' ::
          (body ++ '\x7b' :: '\x7b' :: '/' :: 'i' :: 'f' :: '\x7d' :: '\x7d' :: post)))
      = post := by
  rw [condPassGo]
  rw [tryIfBlock_at_block cond body post hne hnb hbody]
  show (if evaluateCondition (String.mk cond) dp = true then body else [])
      ++ condPassGo dp f post = post
  rw [hfalse]
  simp only [Bool.false_eq_true, if_false, List.nil_append]
  exact condPassGo_id dp f post (tryIf_none_of_noBrace post hpost)

theorem condPass_id_of_noBrace (dp : DateParts) (l : List Char) (h : ∀ c ∈ l, c ≠ '\x7b') :
    condPass dp l = l :=
  condPassGo_id dp l.length l (tryIf_none_of_noBrace l h)

/-- The five condition keys the renderer recognizes. -/
def recognizedConditionKeys : List String := ["day", "month", "dom", "year", "date"]

/-- Key of one clause: the text before the first equals sign, trimmed
and lowercased as the evaluator normalizes it. -/
def clauseKey (check : String) : String :=
  lowerString (jsTrim ((splitStringOnChar '=' check).headD ""))

theorem clauseHolds_false_of_badkey (dp : DateParts) (clause : String)
    (h : clauseKey clause ∉ recognizedConditionKeys) : clauseHolds dp clause = false := by
  unfold clauseHolds
  cases hp : splitStringOnChar '=' clause with
  | nil => simp [hp]
  | cons keyRaw rest =>
    simp only [hp]
    cases hh : rest.head? with
    | none => simp [hh]
    | some valueRaw =>
      simp only [hh]
      by_cases hk : keyRaw = ""
      · simp [hk]
      · rw [if_neg hk]
        have hkey : clauseKey clause = lowerString (jsTrim keyRaw) := by
          unfold clauseKey
          rw [hp]
          rfl
        rw [hkey] at h
        simp only [recognizedConditionKeys, List.mem_cons, List.mem_singleton] at h
        push_neg at h
        obtain ⟨h1, h2, h3, h4, h5, -⟩ := h
        rw [if_neg h1, if_neg h2, if_neg h3, if_neg h4, if_neg h5]

/-- Claim C5: a conditional block whose condition contains a clause
with an unrecognized key evaluates false and is removed together with
its delimiters; ampersand-joined clauses are conjunctive (the body is
kept exactly when every clause holds), and there is no disjunction. -/
theorem claim_C5 :
    (∀ (cond : String) (dp : DateParts),
      (∃ clause ∈ conditionClauses cond, clauseKey clause ∉ recognizedConditionKeys) →
      evaluateCondition cond dp = false)
    ∧ (∀ (cond : String) (dp : DateParts),
      evaluateCondition cond dp = true ↔
        conditionClauses cond ≠ []
        ∧ ∀ clause ∈ conditionClauses cond, clauseHolds dp clause = true)
    ∧ ∀ (referenceDate : Option String) (todayIso : String) (pre cond body post : String),
        (∀ c ∈ pre.data, c ≠ '\x7b') →
        cond.data ≠ [] → (∀ c ∈ cond.data, c ≠ '\x7d') →
        (∃ clause ∈ conditionClauses cond, clauseKey clause ∉ recognizedConditionKeys) →
        (∀ c ∈ body.data, c ≠ '\x7b') → (∀ c ∈ post.data, c ≠ '\x7b') →
        renderTemplate (some (pre ++ "\x7b\x7bif:" ++ cond ++ "\x7d\x7d" ++ body
            ++ "\x7b\x7b/if\x7d\x7d" ++ post)) referenceDate todayIso
          = pre ++ post := by
  have hpartA : ∀ (cond : String) (dp : DateParts),
      (∃ clause ∈ conditionClauses cond, clauseKey clause ∉ recognizedConditionKeys) →
      evaluateCondition cond dp = false := by
    intro cond dp ⟨clause, hmem, hkey⟩
    unfold evaluateCondition
    have hne : (conditionClauses cond).isEmpty = false := by
      cases hc : conditionClauses cond with
      | nil => rw [hc] at hmem; simp at hmem
      | cons a l => simp
    rw [if_neg (by simp [hne])]
    apply Bool.eq_false_iff.mpr
    intro hall
    rw [List.all_eq_true] at hall
    have hclause := hall clause hmem
    rw [clauseHolds_false_of_badkey dp clause hkey] at hclause
    exact Bool.false_ne_true hclause
  refine ⟨hpartA, ?_, ?_⟩
  · intro cond dp
    unfold evaluateCondition
    by_cases he : (conditionClauses cond).isEmpty
    · rw [if_pos he]
      simp only [List.isEmpty_iff] at he
      simp [he]
    · rw [if_neg he]
      simp only [List.isEmpty_iff] at he
      simp [List.all_eq_true, he]
  · intro referenceDate todayIso pre cond body post hpre hcne hcnb hbad hbody hpost
    have hfalse := hpartA cond (parseIsoDateParts (resolveReferenceIsoDate referenceDate todayIso)) hbad
    have hlit1 : ("\x7b\x7bif:" : String).data = '\x7b' :: '\x7b' :: 'i' :: 'f' :: ':' :: [] := rfl
    have hlit2 : ("\x7d\x7d" : String).data = '\x7d' :: '\x7d' :: [] := rfl
    have hlit3 : ("\x7b\x7b/if\x7d\x7d" : String).data
        = '\x7b' :: '\x7b' :: '/' :: 'i' :: 'f' :: '\x7d' :: '\x7d' :: [] := rfl
    have hdata : (pre ++ "\x7b\x7bif:" ++ cond ++ "\x7d\x7d" ++ body
        ++ "\x7b\x7b/if\x7d\x7d" ++ post).data
        = pre.data ++ ('\x7b' :: '\x7b' :: 'i' :: 'f' :: ':' ::
            (cond.data ++ '\x7d' :: '\x7d' ::
              (body.data ++ '\x7b' :: '\x7b' :: '/' :: 'i' :: 'f' :: '\x7d' :: '\x7d'
                :: post.data))) := by
      simp [String.data_append, hlit1, hlit2, hlit3]
    have hs_ne : (pre ++ "\x7b\x7bif:" ++ cond ++ "\x7d\x7d" ++ body
        ++ "\x7b\x7b/if\x7d\x7d" ++ post) ≠ "" := by
      intro hcontra
      have hd := congrArg String.data hcontra
      rw [hdata] at hd
      simp at hd
    set dp := parseIsoDateParts (resolveReferenceIsoDate referenceDate todayIso) with hdp
    set s := pre ++ "\x7b\x7bif:" ++ cond ++ "\x7d\x7d" ++ body
        ++ "\x7b\x7b/if\x7d\x7d" ++ post with hsdef
    show (if s = "" then ""
      else
        let referenceIso := resolveReferenceIsoDate referenceDate todayIso
        let dp1 := parseIsoDateParts referenceIso
        let wc := (renderConditionalBlocks s dp1).data
        String.mk (datePassGo referenceIso wc.length wc)) = pre ++ post
    rw [if_neg hs_ne]
    have hpass1 : condPass dp s.data = pre.data ++ post.data := by
      unfold condPass
      rw [hdata]
      have hflen : (pre.data ++ ('\x7b' :: '\x7b' :: 'i' :: 'f' :: ':' ::
          (cond.data ++ '\x7d' :: '\x7d' ::
            (body.data ++ '\x7b' :: '\x7b' :: '/' :: 'i' :: 'f' :: '\x7d' :: '\x7d'
              :: post.data)))).length
          = pre.data.length + Nat.succ (13 + cond.data.length + body.data.length
            + post.data.length) := by
        simp
        omega
      rw [hflen]
      rw [condPassGo_pre dp pre.data _ _ hpre]
      have hmkcond : String.mk cond.data = cond := rfl
      rw [condPassGo_at_block dp _ cond.data body.data post.data hcne hcnb hbody
        (by rw [hmkcond]; exact hfalse) hpost]
    have hcondblocks : renderConditionalBlocks s dp = pre ++ post := by
      have hgoal : renderCondGo dp 16 s.data = (pre ++ post).data := by
        rw [show (16 : Nat) = Nat.succ 15 from rfl, renderCondGo]
        show (if condPass dp s.data = s.data then s.data
          else renderCondGo dp 15 (condPass dp s.data)) = (pre ++ post).data
        have hneq : condPass dp s.data ≠ s.data := by
          rw [hpass1, hdata]
          intro hcontra
          have hl := congrArg List.length hcontra
          simp at hl
          omega
        rw [if_neg hneq, hpass1]
        rw [show (15 : Nat) = Nat.succ 14 from rfl, renderCondGo]
        show (if condPass dp (pre.data ++ post.data) = pre.data ++ post.data
          then pre.data ++ post.data
          else renderCondGo dp 14 (condPass dp (pre.data ++ post.data)))
            = (pre ++ post).data
        have hid : condPass dp (pre.data ++ post.data) = pre.data ++ post.data :=
          condPass_id_of_noBrace dp _ (by
            intro c hc
            rcases List.mem_append.mp hc with h | h
            · exact hpre c h
            · exact hpost c h)
        rw [if_pos hid]
        rw [String.data_append]
      unfold renderConditionalBlocks
      rw [hgoal]
    show String.mk (datePassGo (resolveReferenceIsoDate referenceDate todayIso)
        (renderConditionalBlocks s dp).data.length (renderConditionalBlocks s dp).data)
      = pre ++ post
    rw [hcondblocks]
    rw [datePassGo_id _ _ _ (by
      rw [String.data_append]
      exact tryDate_none_of_noBrace _ (by
        intro c hc
        rcases List.mem_append.mp hc with h | h
        · exact hpre c h
        · exact hpost c h))]

/-- Witness for claim C5: a block guarded by the unrecognized key foo is
removed, leaving only the surrounding text. -/
theorem claim_C5_witness :
    renderTemplate (some ("Text" ++ "\x7b\x7bif:" ++ "foo=bar" ++ "\x7d\x7d" ++ " Hidden"
        ++ "\x7b\x7b/if\x7d\x7d" ++ "")) Option.none "2024-03-03" = "Text" ++ "" :=
  claim_C5.2.2 Option.none "2024-03-03" "Text" "foo=bar" " Hidden" ""
    (by decide) (by decide) (by decide) (by decide) (by decide) (by decide)

theorem parseRuleGo_vobj (fuel : Nat) (fs : List (String × JsValue)) :
    parseTaskCustomRecurrenceRuleGo (Nat.succ fuel) (JsValue.vobj fs)
      = (match jsGetProp (JsValue.vobj fs) "interval" with
        | some (JsValue.vint n) =>
          if n < 1 ∨ 365 < n then Option.none
          else match jsGetProp (JsValue.vobj fs) "unit" with
            | some (JsValue.vstr u) =>
              if u = "day" then some ⟨n, TaskCustomRecurrenceUnit.day⟩
              else if u = "week" then some ⟨n, TaskCustomRecurrenceUnit.week⟩
              else if u = "month" then some ⟨n, TaskCustomRecurrenceUnit.month⟩
              else Option.none
            | _ => Option.none
        | _ => Option.none) := by
  rw [parseTaskCustomRecurrenceRuleGo]
  · exact if_neg (by simp [isObject])
  · intro s hs
    cases hs

theorem parseRuleGo_varr (fuel : Nat) (es : List JsValue) :
    parseTaskCustomRecurrenceRuleGo (Nat.succ fuel) (JsValue.varr es) = Option.none := by
  rw [parseTaskCustomRecurrenceRuleGo]
  · rw [if_neg (by simp [isObject])]
    rfl
  · intro s hs
    cases hs

/-- Claim C6: parsing inverts serialization on every validated rule
(interval an integer in 1..365 and one of the three units), and the
parser returns null on every malformed input: a non-object non-string
value, a string JSON.parse rejects, an object whose interval property
is absent, non-integer or out of range, or an object whose unit
property is not one of the three unit strings.  The Lean model is a
total function, mirroring the try/catch that keeps the source from
throwing. -/
theorem claim_C6 :
    (∀ r : TaskCustomRecurrenceRule, 1 ≤ r.interval → r.interval ≤ 365 →
      parseTaskCustomRecurrenceRule
          (JsValue.vstr (serializeTaskCustomRecurrenceRule r)) = some r)
    ∧ (∀ v : JsValue, isObject v = false → (∀ s, v ≠ JsValue.vstr s) →
        parseTaskCustomRecurrenceRule v = Option.none)
    ∧ (∀ s : String, jsonParse s = Option.none →
        parseTaskCustomRecurrenceRule (JsValue.vstr s) = Option.none)
    ∧ (∀ v : JsValue, isObject v = true →
        (match jsGetProp v "interval" with
          | some (JsValue.vint n) => n < 1 ∨ 365 < n
          | _ => True) →
        parseTaskCustomRecurrenceRule v = Option.none)
    ∧ (∀ (v : JsValue) (n : Int), isObject v = true →
        jsGetProp v "interval" = some (JsValue.vint n) →
        (match jsGetProp v "unit" with
          | some (JsValue.vstr u) => u ≠ "day" ∧ u ≠ "week" ∧ u ≠ "month"
          | _ => True) →
        parseTaskCustomRecurrenceRule v = Option.none) := by
  refine ⟨?_, ?_, ?_, ?_, ?_⟩
  · intro r h1 h2
    obtain ⟨n, u⟩ := r
    simp only at h1 h2
    have hn : n = (((n - 1).toNat : Nat) : Int) + 1 := by omega
    have hilt : (n - 1).toNat < 365 := by omega
    have hall := c6RoundTripOk_true
    unfold c6RoundTripOk at hall
    simp only [List.all_eq_true] at hall
    have h4 := hall (n - 1).toNat (List.mem_range.mpr hilt) u (by
      cases u <;> simp)
    rw [beq_iff_eq] at h4
    rw [hn]
    exact h4
  · intro v h1 h2
    cases v with
    | vstr s => exact absurd rfl (h2 s)
    | vobj fs => simp [isObject] at h1
    | varr es => simp [isObject] at h1
    | vnull => rfl
    | vundefined => rfl
    | vbool b => rfl
    | vint n => rfl
    | vnumNonInt => rfl
  · intro s hs
    show parseTaskCustomRecurrenceRuleGo
        (jsValueStrMeasure (JsValue.vstr s) + 1) (JsValue.vstr s) = Option.none
    rw [show jsValueStrMeasure (JsValue.vstr s) + 1 = Nat.succ (s.length + 1) from rfl]
    rw [parseTaskCustomRecurrenceRuleGo]
    rw [hs]
  · intro v h1 hbad
    cases v with
    | vobj fs =>
      show parseTaskCustomRecurrenceRuleGo
          (jsValueStrMeasure (JsValue.vobj fs) + 1) (JsValue.vobj fs) = Option.none
      rw [show jsValueStrMeasure (JsValue.vobj fs) + 1 = Nat.succ 0 from rfl]
      rw [parseRuleGo_vobj]
      revert hbad
      cases hint : jsGetProp (JsValue.vobj fs) "interval" with
      | none => intro hbad; rfl
      | some w =>
        cases w with
        | vint n =>
          intro hbad
          simp only []
          rw [if_pos hbad]
        | vnull => intro hbad; rfl
        | vundefined => intro hbad; rfl
        | vbool b => intro hbad; rfl
        | vnumNonInt => intro hbad; rfl
        | vstr t => intro hbad; rfl
        | varr es => intro hbad; rfl
        | vobj gs => intro hbad; rfl
    | varr es =>
      show parseTaskCustomRecurrenceRuleGo
          (jsValueStrMeasure (JsValue.varr es) + 1) (JsValue.varr es) = Option.none
      rw [show jsValueStrMeasure (JsValue.varr es) + 1 = Nat.succ 0 from rfl]
      rw [parseRuleGo_varr]
    | vstr s => simp [isObject] at h1
    | vnull => simp [isObject] at h1
    | vundefined => simp [isObject] at h1
    | vbool b => simp [isObject] at h1
    | vint n => simp [isObject] at h1
    | vnumNonInt => simp [isObject] at h1
  · intro v n h1 hint hbadu
    cases v with
    | vobj fs =>
      show parseTaskCustomRecurrenceRuleGo
          (jsValueStrMeasure (JsValue.vobj fs) + 1) (JsValue.vobj fs) = Option.none
      rw [show jsValueStrMeasure (JsValue.vobj fs) + 1 = Nat.succ 0 from rfl]
      rw [parseRuleGo_vobj]
      rw [hint]
      simp only []
      by_cases hr : n < 1 ∨ 365 < n
      · rw [if_pos hr]
      · rw [if_neg hr]
        revert hbadu
        cases hu : jsGetProp (JsValue.vobj fs) "unit" with
        | none => intro hbadu; rfl
        | some w =>
          cases w with
          | vstr u =>
            intro hbadu
            obtain ⟨hu1, hu2, hu3⟩ := hbadu
            simp only []
            rw [if_neg hu1, if_neg hu2, if_neg hu3]
          | vnull => intro hbadu; rfl
          | vundefined => intro hbadu; rfl
          | vbool b => intro hbadu; rfl
          | vint m => intro hbadu; rfl
          | vnumNonInt => intro hbadu; rfl
          | varr es => intro hbadu; rfl
          | vobj gs => intro hbadu; rfl
    | varr es => simp [jsGetProp] at hint
    | vstr s => simp [isObject] at h1
    | vnull => simp [isObject] at h1
    | vundefined => simp [isObject] at h1
    | vbool b => simp [isObject] at h1
    | vint m => simp [isObject] at h1
    | vnumNonInt => simp [isObject] at h1

/-- Witness for claim C6: the round trip at interval 14 unit day, and
null on a string JSON.parse rejects. -/
theorem claim_C6_witness :
    parseTaskCustomRecurrenceRule
        (JsValue.vstr (serializeTaskCustomRecurrenceRule
          ⟨14, TaskCustomRecurrenceUnit.day⟩))
      = some ⟨14, TaskCustomRecurrenceUnit.day⟩
    ∧ parseTaskCustomRecurrenceRule (JsValue.vstr "oops") = Option.none :=
  ⟨claim_C6.1 ⟨14, TaskCustomRecurrenceUnit.day⟩ (by decide) (by decide),
   claim_C6.2.2.1 "oops" (by rfl)⟩

theorem parseRuleGo_interval_bounds (fuel : Nat) (v : JsValue)
    (r : TaskCustomRecurrenceRule)
    (h : parseTaskCustomRecurrenceRuleGo fuel v = some r) :
    1 ≤ r.interval ∧ r.interval ≤ 365 := by
  induction fuel generalizing v with
  | zero =>
    rw [show parseTaskCustomRecurrenceRuleGo 0 v = Option.none from rfl] at h
    cases h
  | succ fuel ih =>
    match v with
    | .vstr s =>
      rw [parseTaskCustomRecurrenceRuleGo] at h
      cases hw : jsonParse s with
      | none =>
        rw [hw] at h
        cases h
      | some w =>
        rw [hw] at h
        exact ih w h
    | .varr es =>
      rw [parseRuleGo_varr] at h
      cases h
    | .vobj fs =>
      rw [parseRuleGo_vobj] at h
      cases hint : jsGetProp (JsValue.vobj fs) "interval" with
      | none =>
        rw [hint] at h
        cases h
      | some w =>
        rw [hint] at h
        match w with
        | .vint n =>
          simp only [] at h
          split_ifs at h with hr
          cases hu : jsGetProp (JsValue.vobj fs) "unit" with
          | none =>
            rw [hu] at h
            cases h
          | some wu =>
            rw [hu] at h
            match wu with
            | .vstr u =>
              simp only [] at h
              split_ifs at h with h1 h2 h3 <;>
                first
                | (injection h with h4
                   rw [← h4]
                   simp only []
                   omega)
                | cases h
            | .vnull => cases h
            | .vundefined => cases h
            | .vbool b => cases h
            | .vint k => cases h
            | .vnumNonInt => cases h
            | .varr es2 => cases h
            | .vobj gs => cases h
        | .vnull => cases h
        | .vundefined => cases h
        | .vbool b => cases h
        | .vstr t => cases h
        | .vnumNonInt => cases h
        | .varr es2 => cases h
        | .vobj gs => cases h
    | .vnull =>
      rw [show parseTaskCustomRecurrenceRuleGo (Nat.succ fuel) JsValue.vnull
        = Option.none from rfl] at h
      cases h
    | .vundefined =>
      rw [show parseTaskCustomRecurrenceRuleGo (Nat.succ fuel) JsValue.vundefined
        = Option.none from rfl] at h
      cases h
    | .vbool b =>
      rw [show parseTaskCustomRecurrenceRuleGo (Nat.succ fuel) (JsValue.vbool b)
        = Option.none from rfl] at h
      cases h
    | .vint n =>
      rw [show parseTaskCustomRecurrenceRuleGo (Nat.succ fuel) (JsValue.vint n)
        = Option.none from rfl] at h
      cases h
    | .vnumNonInt =>
      rw [show parseTaskCustomRecurrenceRuleGo (Nat.succ fuel) JsValue.vnumNonInt
        = Option.none from rfl] at h
      cases h

/-- Every rule the resolver produces carries a validated interval. -/
theorem resolvedRule_interval_bounds (rt : TaskRecurrenceType) (rr : JsValue)
    (r : TaskCustomRecurrenceRule)
    (h : getResolvedTaskRecurrenceRule rt rr = some r) :
    1 ≤ r.interval ∧ r.interval ≤ 365 := by
  cases rt with
  | none => cases h
  | daily =>
    injection h with h2
    rw [← h2]
    constructor <;> norm_num
  | weekly =>
    injection h with h2
    rw [← h2]
    constructor <;> norm_num
  | monthly =>
    injection h with h2
    rw [← h2]
    constructor <;> norm_num
  | custom => exact parseRuleGo_interval_bounds _ _ _ h

/-- The components the date regex extracts are digit-built naturals. -/
theorem parseYmd_nonneg (s : String) (y m d : Int)
    (h : parseYmd s = some (y, m, d)) : 0 ≤ y ∧ 0 ≤ m ∧ 0 ≤ d := by
  unfold parseYmd at h
  split at h
  · split_ifs at h
    simp only [Option.some.injEq, Prod.mk.injEq] at h
    obtain ⟨hy, hm, hd⟩ := h
    refine ⟨?_, ?_, ?_⟩
    · rw [← hy]; exact Int.natCast_nonneg _
    · rw [← hm]; exact Int.natCast_nonneg _
    · rw [← hd]; exact Int.natCast_nonneg _
  · cases h

theorem padZeros_length (w : Nat) (s : String) (h : s.length ≤ w) :
    (padZeros w s).length = w := by
  unfold padZeros
  split_ifs with hlt
  · rw [String.length_append]
    have hrep : (String.mk (List.replicate (w - s.length) '0')).length
        = w - s.length := by
      show (List.replicate (w - s.length) '0').length = w - s.length
      exact List.length_replicate _ _
    omega
  · omega

theorem ymdString_length (y m d : Int) (hy0 : 0 ≤ y) (hy : y ≤ 9999)
    (hm0 : 0 ≤ m) (hm : m ≤ 99) (hd0 : 0 ≤ d) (hd : d ≤ 99) :
    (ymdString y m d).length = 10 := by
  have h4 : (10 : ℕ) ^ 4 = 10000 := by norm_num
  have h2 : (10 : ℕ) ^ 2 = 100 := by norm_num
  unfold ymdString
  rw [String.length_append, String.length_append, String.length_append,
    String.length_append]
  rw [padZeros_length 4 _ (Nat.repr_length y.toNat 4 (by norm_num) (by omega))]
  rw [padZeros_length 2 _ (Nat.repr_length m.toNat 2 (by norm_num) (by omega))]
  rw [padZeros_length 2 _ (Nat.repr_length d.toNat 2 (by norm_num) (by omega))]
  rfl

/-- Within the four-digit era the source rendering (toISOString sliced
to ten characters) is exactly the YYYY-MM-DD rendering. -/
theorem toIsoDate_eq_ymdString (y m d : Int) (hy0 : 0 ≤ y) (hy : y ≤ 9999)
    (hm1 : 1 ≤ m) (hm2 : m ≤ 12) (hd1 : 1 ≤ d) (hd2 : d ≤ daysInMonth y m) :
    toIsoDate (epochDayOfYmd y m d) = ymdString y m d := by
  unfold toIsoDate
  rw [civilFromDays_epochDayOfYmd y m d hm1 hm2 hd1 hd2]
  have hj : jsISOStringDate y m d = ymdString y m d := by
    unfold jsISOStringDate ymdString
    rw [if_pos ⟨hy0, hy⟩]
  show String.mk ((jsISOStringDate y m d).data.take 10) = ymdString y m d
  rw [hj]
  have hdm := daysInMonth_bounds y m
  have hlen : (ymdString y m d).data.length = 10 :=
    ymdString_length y m d hy0 hy (by omega) (by omega) (by omega) (by omega)
  rw [List.take_of_length_le (le_of_eq hlen)]

/-- Claim C1: on a valid anchor, a month-unit rule and a result month
that stays inside the four-digit era, the next occurrence is the
specification's clamped month addition; the two quoted examples hold. -/
theorem claim_C1 :
    (∀ (anchor : String) (rt : TaskRecurrenceType) (rr : JsValue) (y m d : Int)
        (r : TaskCustomRecurrenceRule),
      parseYmd anchor = some (y, m, d) →
      1 ≤ m → m ≤ 12 → 1 ≤ d → d ≤ daysInMonth y m →
      getResolvedTaskRecurrenceRule rt rr = some r →
      r.unit = TaskCustomRecurrenceUnit.month →
      12 * y + (m - 1) + r.interval ≤ 12 * 9999 + 11 →
      getNextTaskRecurrenceDate anchor rt rr = some (specMonthlyNext y m d r.interval))
    ∧ getNextTaskRecurrenceDate "2024-01-31" TaskRecurrenceType.monthly JsValue.vnull
        = some "2024-02-29"
    ∧ getNextTaskRecurrenceDate "2023-01-31" TaskRecurrenceType.monthly JsValue.vnull
        = some "2023-02-28" := by
  refine ⟨?_, by decide, by decide⟩
  intro anchor rt rr y m d r hymd hm1 hm2 hd1 hd2 hres hunit hbound
  obtain ⟨k, u⟩ := r
  simp only [] at hunit hbound ⊢
  subst hunit
  obtain ⟨hy0, -, -⟩ := parseYmd_nonneg anchor y m d hymd
  obtain ⟨hk1, hk365⟩ := resolvedRule_interval_bounds rt rr _ hres
  simp only [] at hk1 hk365
  have hparse : parseIsoDate anchor = some (epochDayOfYmd y m d) := by
    unfold parseIsoDate
    rw [hymd]
    show (if 1 ≤ m ∧ m ≤ 12 ∧ 1 ≤ d ∧ d ≤ ((daysInMonth y m : Nat) : Int)
      then some (epochDayOfYmd y m d) else Option.none) = some (epochDayOfYmd y m d)
    rw [if_pos ⟨hm1, hm2, hd1, hd2⟩]
  unfold getNextTaskRecurrenceDate
  rw [hres, hparse]
  show some (toIsoDate (addMonthsClamped (epochDayOfYmd y m d) k))
    = some (specMonthlyNext y m d k)
  congr 1
  unfold addMonthsClamped
  rw [civilFromDays_epochDayOfYmd y m d hm1 hm2 hd1 hd2]
  show toIsoDate (epochDayOfYmd ((12 * y + (m - 1) + k) / 12)
      ((12 * y + (m - 1) + k) % 12 + 1)
      (min d ((daysInMonth ((12 * y + (m - 1) + k) / 12)
        ((12 * y + (m - 1) + k) % 12 + 1) : Nat) : Int)))
    = specMonthlyNext y m d k
  have ht0 : 0 ≤ 12 * y + (m - 1) + k := by omega
  have hdm2 := daysInMonth_bounds ((12 * y + (m - 1) + k) / 12)
    ((12 * y + (m - 1) + k) % 12 + 1)
  rw [toIsoDate_eq_ymdString _ _ _ (by omega) (by omega) (by omega) (by omega)
    (by omega) (min_le_right _ _)]
  rfl

/-- Witness for claim C1: the leap-year clamp example through the
general statement. -/
theorem claim_C1_witness :
    getNextTaskRecurrenceDate "2024-01-31" TaskRecurrenceType.monthly JsValue.vnull
      = some (specMonthlyNext 2024 1 31 1) :=
  claim_C1.1 "2024-01-31" TaskRecurrenceType.monthly JsValue.vnull 2024 1 31
    ⟨1, TaskCustomRecurrenceUnit.month⟩ (by decide) (by decide) (by decide)
    (by decide) (by decide) (by decide) (by rfl) (by decide)

/-- Counterexample to claim C1 as frozen: at anchor 9999-12-31 the
monthly step lands in year 10000, toISOString switches to the
six-digit expanded year and the ten-character slice returns
"+010000-01", which is not the anchor plus one month and not even a
parseable YYYY-MM-DD date. -/
theorem claim_C1_counterexample :
    getNextTaskRecurrenceDate "9999-12-31" TaskRecurrenceType.monthly JsValue.vnull
      = some "+010000-01"
    ∧ parseIsoDate "+010000-01" = Option.none := by
  constructor
  · have hparse : parseIsoDate "9999-12-31" = some (epochDayOfYmd 9999 12 31) := by
      unfold parseIsoDate
      rw [show parseYmd "9999-12-31" = some (9999, 12, 31) from by decide]
      show (if 1 ≤ (12 : Int) ∧ (12 : Int) ≤ 12 ∧ 1 ≤ (31 : Int)
          ∧ (31 : Int) ≤ ((daysInMonth 9999 12 : Nat) : Int)
        then some (epochDayOfYmd 9999 12 31) else Option.none)
        = some (epochDayOfYmd 9999 12 31)
      rw [if_pos (by decide)]
    unfold getNextTaskRecurrenceDate
    rw [show getResolvedTaskRecurrenceRule TaskRecurrenceType.monthly JsValue.vnull
      = some ⟨1, TaskCustomRecurrenceUnit.month⟩ from rfl]
    rw [hparse]
    show some (toIsoDate (addMonthsClamped (epochDayOfYmd 9999 12 31) 1))
      = some "+010000-01"
    refine congrArg some ?_
    unfold addMonthsClamped
    rw [civilFromDays_epochDayOfYmd 9999 12 31 (by norm_num) (by norm_num)
      (by norm_num) (by decide)]
    show toIsoDate (epochDayOfYmd 10000 1 31) = "+010000-01"
    unfold toIsoDate
    rw [civilFromDays_epochDayOfYmd 10000 1 31 (by norm_num) (by norm_num)
      (by norm_num) (by decide)]
    decide
  · decide

/-- The bounded loop returns some result exactly when some iterate of
the single-step function inside the fuel bound is the first cursor on
or after the target, every earlier cursor parsing strictly before it. -/
theorem searchLoop_some_iff (rt : TaskRecurrenceType) (rr : JsValue) (target : Int)
    (fuel : Nat) (cursor res : String) :
    taskRecurrenceSearchLoop rt rr target fuel cursor = some res
    ↔ ∃ k, k < fuel ∧ taskRecurrenceOrbit rt rr k cursor = some res
        ∧ (∃ rv, parseIsoDate res = some rv ∧ target ≤ rv)
        ∧ ∀ j, j < k → ∃ s cv, taskRecurrenceOrbit rt rr j cursor = some s
            ∧ parseIsoDate s = some cv ∧ cv < target := by
  induction fuel generalizing cursor with
  | zero =>
    constructor
    · intro h
      rw [show taskRecurrenceSearchLoop rt rr target 0 cursor
        = Option.none from rfl] at h
      cases h
    · rintro ⟨k, hk, -⟩
      omega
  | succ fuel ih =>
    rw [taskRecurrenceSearchLoop]
    cases hp : parseIsoDate cursor with
    | none =>
      simp only []
      constructor
      · intro h
        cases h
      · rintro ⟨k, hk, horb, ⟨rv, hrv, hge⟩, hbefore⟩
        match k with
        | 0 =>
          rw [show taskRecurrenceOrbit rt rr 0 cursor = some cursor from rfl] at horb
          injection horb with he
          rw [← he, hp] at hrv
          cases hrv
        | Nat.succ k2 =>
          obtain ⟨s, cv, hs, hcv, -⟩ := hbefore 0 (by omega)
          rw [show taskRecurrenceOrbit rt rr 0 cursor = some cursor from rfl] at hs
          injection hs with he
          rw [← he, hp] at hcv
          cases hcv
    | some c =>
      simp only []
      by_cases hle : target ≤ c
      · rw [if_pos hle]
        constructor
        · intro h
          injection h with he
          refine ⟨0, by omega, ?_, ⟨c, ?_, hle⟩, ?_⟩
          · rw [show taskRecurrenceOrbit rt rr 0 cursor = some cursor from rfl, he]
          · rw [← he]
            exact hp
          · intro j hj
            omega
        · rintro ⟨k, hk, horb, ⟨rv, hrv, hge⟩, hbefore⟩
          match k with
          | 0 =>
            rw [show taskRecurrenceOrbit rt rr 0 cursor = some cursor from rfl] at horb
            exact horb
          | Nat.succ k2 =>
            obtain ⟨s, cv, hs, hcv, hlt⟩ := hbefore 0 (by omega)
            rw [show taskRecurrenceOrbit rt rr 0 cursor = some cursor from rfl] at hs
            injection hs with he
            rw [← he, hp] at hcv
            injection hcv with he2
            omega
      · rw [if_neg hle]
        cases hnext : getNextTaskRecurrenceDate cursor rt rr with
        | none =>
          simp only []
          constructor
          · intro h
            cases h
          · rintro ⟨k, hk, horb, ⟨rv, hrv, hge⟩, hbefore⟩
            match k with
            | 0 =>
              rw [show taskRecurrenceOrbit rt rr 0 cursor = some cursor from rfl] at horb
              injection horb with he
              rw [← he, hp] at hrv
              injection hrv with he2
              omega
            | Nat.succ k2 =>
              rw [taskRecurrenceOrbit, hnext] at horb
              cases horb
        | some nxt =>
          simp only []
          rw [ih nxt]
          constructor
          · rintro ⟨k, hk, horb, hres, hbefore⟩
            refine ⟨k + 1, by omega, ?_, hres, ?_⟩
            · rw [taskRecurrenceOrbit, hnext]
              exact horb
            · intro j hj
              match j with
              | 0 =>
                exact ⟨cursor, c, rfl, hp, by omega⟩
              | Nat.succ j2 =>
                obtain ⟨s, cv, hs, hcv, hlt⟩ := hbefore j2 (by omega)
                refine ⟨s, cv, ?_, hcv, hlt⟩
                rw [taskRecurrenceOrbit, hnext]
                exact hs
          · rintro ⟨k, hk, horb, hres, hbefore⟩
            match k with
            | 0 =>
              rw [show taskRecurrenceOrbit rt rr 0 cursor = some cursor from rfl] at horb
              injection horb with he
              obtain ⟨rv, hrv, hge⟩ := hres
              rw [← he, hp] at hrv
              injection hrv with he2
              omega
            | Nat.succ k2 =>
              rw [taskRecurrenceOrbit, hnext] at horb
              refine ⟨k2, by omega, horb, hres, ?_⟩
              intro j hj
              obtain ⟨s, cv, hs, hcv, hlt⟩ := hbefore (j + 1) (by omega)
              rw [taskRecurrenceOrbit, hnext] at hs
              exact ⟨s, cv, hs, hcv, hlt⟩

/-- Claim C2: with a parseable target, the bounded search returns the
anchor unchanged when the target is on or before it, and in general
returns some result exactly when, within the 4000-step ceiling, some
iterate of nextOccurrence is the first cursor on or after the target;
when no such iterate exists inside the ceiling no result is possible,
so the search ends in null instead of looping on. -/
theorem claim_C2 :
    (∀ (anchor targetStr : String) (rt : TaskRecurrenceType) (rr : JsValue)
        (a t : Int),
      parseIsoDate anchor = some a → parseIsoDate targetStr = some t → t ≤ a →
      getNextTaskRecurrenceOnOrAfter anchor rt rr targetStr = some anchor)
    ∧ (∀ (anchor targetStr res : String) (rt : TaskRecurrenceType) (rr : JsValue)
        (t : Int),
      parseIsoDate targetStr = some t →
      (getNextTaskRecurrenceOnOrAfter anchor rt rr targetStr = some res ↔
        ∃ k, k < 4000 ∧ taskRecurrenceOrbit rt rr k anchor = some res
          ∧ (∃ rv, parseIsoDate res = some rv ∧ t ≤ rv)
          ∧ ∀ j, j < k → ∃ s cv, taskRecurrenceOrbit rt rr j anchor = some s
              ∧ parseIsoDate s = some cv ∧ cv < t)) := by
  constructor
  · intro anchor targetStr rt rr a t ha ht hle
    unfold getNextTaskRecurrenceOnOrAfter
    rw [ht]
    exact (searchLoop_some_iff rt rr t 4000 anchor anchor).mpr
      ⟨0, by omega, rfl, ⟨a, ha, hle⟩, by
        intro j hj
        exact absurd hj (by omega)⟩
  · intro anchor targetStr res rt rr t ht
    unfold getNextTaskRecurrenceOnOrAfter
    rw [ht]
    exact searchLoop_some_iff rt rr t 4000 anchor res

/-- Witness for claim C2: a target two days past the anchor is reached
at the second daily iterate, and a target before the anchor returns
the anchor itself. -/
theorem claim_C2_witness :
    getNextTaskRecurrenceOnOrAfter "2024-03-03" TaskRecurrenceType.daily JsValue.vnull
        "2024-03-01" = some "2024-03-03"
    ∧ getNextTaskRecurrenceOnOrAfter "2024-03-01" TaskRecurrenceType.daily JsValue.vnull
        "2024-03-03" = some "2024-03-03" := by
  refine ⟨claim_C2.1 "2024-03-03" "2024-03-01" TaskRecurrenceType.daily JsValue.vnull
      (epochDayOfYmd 2024 3 3) (epochDayOfYmd 2024 3 1) (by decide) (by decide)
      (by decide),
    (claim_C2.2 "2024-03-01" "2024-03-03" "2024-03-03" TaskRecurrenceType.daily
      JsValue.vnull (epochDayOfYmd 2024 3 3) (by decide)).mpr ?_⟩
  refine ⟨2, by omega, by decide, ⟨epochDayOfYmd 2024 3 3, by decide, by decide⟩, ?_⟩
  intro j hj
  match j with
  | 0 => exact ⟨"2024-03-01", epochDayOfYmd 2024 3 1, by decide, by decide, by decide⟩
  | 1 => exact ⟨"2024-03-02", epochDayOfYmd 2024 3 2, by decide, by decide, by decide⟩
  | Nat.succ (Nat.succ j2) => exact absurd hj (by omega)

theorem linkAllTasks_dispatches (did : Nat) (ids : List Nat) (db : Db) :
    (linkAllTasks did ids db).dispatches = db.dispatches := by
  induction ids generalizing db with
  | nil => rfl
  | cons t rest ih =>
    rw [linkAllTasks]
    cases h : db.dispatchTasks.find? (fun p => p.1 == did && p.2 == t) with
    | some q =>
      simp only []
      exact ih db
    | none =>
      simp only []
      exact ih _

theorem linkAllTasks_tasks (did : Nat) (ids : List Nat) (db : Db) :
    (linkAllTasks did ids db).tasks = db.tasks := by
  induction ids generalizing db with
  | nil => rfl
  | cons t rest ih =>
    rw [linkAllTasks]
    cases h : db.dispatchTasks.find? (fun p => p.1 == did && p.2 == t) with
    | some q =>
      simp only []
      exact ih db
    | none =>
      simp only []
      exact ih _

/-- The rollover linking loop adds exactly the listed pairs that are
not already present: link membership afterwards is membership before
or presence in the list under the target dispatch. -/
theorem linkAllTasks_mem (did : Nat) (ids : List Nat) (db : Db) (p : Nat × Nat) :
    p ∈ (linkAllTasks did ids db).dispatchTasks
    ↔ p ∈ db.dispatchTasks ∨ (p.1 = did ∧ p.2 ∈ ids) := by
  induction ids generalizing db with
  | nil =>
    show p ∈ db.dispatchTasks ↔ p ∈ db.dispatchTasks ∨ (p.1 = did ∧ p.2 ∈ [])
    simp
  | cons t rest ih =>
    rw [linkAllTasks]
    cases h : db.dispatchTasks.find? (fun q => q.1 == did && q.2 == t) with
    | some q =>
      simp only []
      rw [ih]
      have hq : q ∈ db.dispatchTasks := List.mem_of_find?_eq_some h
      have hpred := List.find?_some h
      simp only [Bool.and_eq_true, beq_iff_eq] at hpred
      obtain ⟨h1, h2⟩ := hpred
      constructor
      · rintro (hm | ⟨hp1, hp2⟩)
        · exact Or.inl hm
        · exact Or.inr ⟨hp1, List.mem_cons_of_mem _ hp2⟩
      · rintro (hm | ⟨hp1, hp2⟩)
        · exact Or.inl hm
        · rcases List.mem_cons.mp hp2 with he | hr
          · left
            have hpq : p = q := by
              rw [Prod.ext_iff]
              exact ⟨by rw [hp1, h1], by rw [he, h2]⟩
            rw [hpq]
            exact hq
          · exact Or.inr ⟨hp1, hr⟩
    | none =>
      simp only []
      rw [ih]
      simp only [List.mem_append, List.mem_singleton, List.mem_cons, Prod.ext_iff]
      tauto

/-- getOrCreateDispatch touches only the dispatches table, returns a row
of the resulting table carrying the requested user and date, and either
reuses the table or appends one fresh row. -/
theorem getOrCreateDispatch_spec (db : Db) (u d now : String) (row : DispatchRow)
    (db2 : Db) (h : getOrCreateDispatch db u d now = (row, db2)) :
    db2.dispatchTasks = db.dispatchTasks
    ∧ db2.tasks = db.tasks
    ∧ row ∈ db2.dispatches
    ∧ row.userId = u ∧ row.date = d
    ∧ (db2.dispatches = db.dispatches
       ∨ (db2.dispatches = db.dispatches ++ [row]
          ∧ row.id = db.nextDispatchId ∧ row.finalized = false)) := by
  unfold getOrCreateDispatch at h
  cases hf : findDispatch db u d with
  | some existing =>
    rw [hf] at h
    simp only [Prod.mk.injEq] at h
    obtain ⟨h1, h2⟩ := h
    unfold findDispatch at hf
    have hm := List.mem_of_find?_eq_some hf
    have hp := List.find?_some hf
    simp only [Bool.and_eq_true, beq_iff_eq] at hp
    rw [← h1, ← h2]
    exact ⟨rfl, rfl, hm, hp.1, hp.2, Or.inl rfl⟩
  | none =>
    rw [hf] at h
    simp only [Prod.mk.injEq] at h
    obtain ⟨h1, h2⟩ := h
    rw [← h1, ← h2]
    refine ⟨rfl, rfl, ?_, rfl, rfl, Or.inr ⟨rfl, rfl, rfl⟩⟩
    simp

/-- Claim C3: completing an already finalized dispatch fails with the
store unchanged; completing an open one returns the finalized row and
the count of the linked live not-done tasks, creates or reuses the
next-day dispatch only when that count is positive (the id is null
exactly when nothing rolls over), finalizes every stored row of that
dispatch id, never touches the tasks table, and afterwards the link
rows are exactly the old ones plus the rolled-over tasks under the
next-day dispatch. -/
theorem claim_C3 :
    (∀ (db : Db) (userId : String) (dispatchId : Nat) (now : String)
        (dispatch : DispatchRow),
      db.dispatches.find? (fun r => r.id == dispatchId && r.userId == userId)
        = some dispatch →
      dispatch.finalized = true →
      completeDispatch db userId dispatchId now
        = (db, Except.error "Dispatch is already finalized."))
    ∧ (∀ (db : Db) (userId : String) (dispatchId : Nat) (now : String)
        (dispatch : DispatchRow),
      (∀ r ∈ db.dispatches, r.id < db.nextDispatchId) →
      db.dispatches.find? (fun r => r.id == dispatchId && r.userId == userId)
        = some dispatch →
      dispatch.finalized = false →
      ∃ (db2 : Db) (nid : Option Nat),
        completeDispatch db userId dispatchId now
          = (db2, Except.ok ({ dispatch with finalized := true, updatedAt := now },
              (unfinishedLinkedTaskIds db dispatch.id).length, nid))
        ∧ (nid = Option.none ↔ unfinishedLinkedTaskIds db dispatch.id = [])
        ∧ db2.tasks = db.tasks
        ∧ (∀ r ∈ db2.dispatches, r.id = dispatch.id → r.finalized = true)
        ∧ (unfinishedLinkedTaskIds db dispatch.id = [] →
            db2.dispatchTasks = db.dispatchTasks
            ∧ db2.dispatches = db.dispatches.map (fun r =>
                if r.id == dispatch.id
                then { r with finalized := true, updatedAt := now } else r))
        ∧ (∀ n, nid = some n →
            (∀ p : Nat × Nat, p ∈ db2.dispatchTasks ↔
              p ∈ db.dispatchTasks
                ∨ (p.1 = n ∧ p.2 ∈ unfinishedLinkedTaskIds db dispatch.id))
            ∧ ∃ nrow ∈ db2.dispatches, nrow.id = n ∧ nrow.userId = userId
                ∧ nrow.date = nextDate dispatch.date)) := by
  constructor
  · intro db userId dispatchId now dispatch hfind hfin
    unfold completeDispatch
    rw [hfind]
    simp only []
    rw [if_pos hfin]
  · intro db userId dispatchId now dispatch hfresh hfind hfin
    have hmem : dispatch ∈ db.dispatches := List.mem_of_find?_eq_some hfind
    have hlt : dispatch.id < db.nextDispatchId := hfresh dispatch hmem
    obtain ⟨db1, hdb1⟩ : ∃ db1, ({ db with dispatches := db.dispatches.map (fun r =>
        if r.id == dispatch.id then { r with finalized := true, updatedAt := now }
        else r) } : Db) = db1 := ⟨_, rfl⟩
    have hdb1dt : db1.dispatchTasks = db.dispatchTasks := by rw [← hdb1]
    have hdb1t : db1.tasks = db.tasks := by rw [← hdb1]
    have hdb1n : db1.nextDispatchId = db.nextDispatchId := by rw [← hdb1]
    have hdb1disp : db1.dispatches = db.dispatches.map (fun r =>
        if r.id == dispatch.id then { r with finalized := true, updatedAt := now }
        else r) := by rw [← hdb1]
    have hfinmap : ∀ r ∈ db1.dispatches, r.id = dispatch.id → r.finalized = true := by
      intro r hr hrid
      rw [hdb1disp] at hr
      obtain ⟨r0, hr0, hre⟩ := List.mem_map.mp hr
      by_cases h0 : r0.id = dispatch.id
      · rw [if_pos (by exact beq_iff_eq.mpr h0)] at hre
        rw [← hre]
      · rw [if_neg (by simp [h0])] at hre
        rw [← hre] at hrid
        exact absurd hrid h0
    by_cases he : unfinishedLinkedTaskIds db dispatch.id = []
    · refine ⟨db1, Option.none, ?_, by simp [he], by rw [hdb1t], hfinmap,
        fun _ => ⟨by rw [hdb1dt], hdb1disp⟩, by simp⟩
      have heq : completeDispatch db userId dispatchId now
          = (db1, Except.ok ({ dispatch with finalized := true, updatedAt := now },
              0, Option.none)) := by
        unfold completeDispatch
        rw [hfind]
        simp only []
        rw [if_neg (by simp [hfin])]
        rw [if_pos (by rw [List.isEmpty_iff]; exact he)]
        rw [← hdb1]
      rw [heq, he]
      rfl
    · obtain ⟨row, db2, hoc⟩ : ∃ row db2,
          getOrCreateDispatch db1 userId (nextDate dispatch.date) now = (row, db2) :=
        ⟨_, _, rfl⟩
      obtain ⟨hocdt, hoct, hocrow, hocu, hocd, hocdisp⟩ :=
        getOrCreateDispatch_spec db1 userId (nextDate dispatch.date) now row db2 hoc
      have heq : completeDispatch db userId dispatchId now
          = (linkAllTasks row.id (unfinishedLinkedTaskIds db dispatch.id) db2,
             Except.ok ({ dispatch with finalized := true, updatedAt := now },
               (unfinishedLinkedTaskIds db dispatch.id).length, some row.id)) := by
        unfold completeDispatch
        rw [hfind]
        simp only []
        rw [if_neg (by simp [hfin])]
        rw [if_neg (by rw [List.isEmpty_iff]; exact he)]
        rw [hdb1, hoc]
        rfl
      refine ⟨linkAllTasks row.id (unfinishedLinkedTaskIds db dispatch.id) db2,
        some row.id, heq, by simp [he], ?_, ?_, fun habs => absurd habs he, ?_⟩
      · rw [linkAllTasks_tasks, hoct, hdb1t]
      · intro r hr hrid
        rw [linkAllTasks_dispatches] at hr
        rcases hocdisp with hsame | ⟨happ, hrowid, -⟩
        · rw [hsame] at hr
          exact hfinmap r hr hrid
        · rw [happ] at hr
          rcases List.mem_append.mp hr with hr1 | hr1
          · exact hfinmap r hr1 hrid
          · rw [List.mem_singleton] at hr1
            rw [hr1] at hrid
            rw [hrowid, hdb1n] at hrid
            omega
      · intro n hn
        injection hn with hn2
        rw [← hn2]
        constructor
        · intro p
          rw [linkAllTasks_mem, hocdt, hdb1dt]
        · refine ⟨row, ?_, rfl, hocu, hocd⟩
          rw [linkAllTasks_dispatches]
          exact hocrow

/-- Concrete store of the specification's rollover scenario: one open
dispatch with three linked live tasks, one done and two not. -/
def c3Db : Db :=
  ⟨[⟨0, "u", "2025-03-01", Option.none, false, "t0", "t0"⟩],
   [(0, 1), (0, 2), (0, 3)],
   [⟨1, "u", "done", Option.none⟩, ⟨2, "u", "open", Option.none⟩,
    ⟨3, "u", "in_progress", Option.none⟩],
   1⟩

def c3Row : DispatchRow :=
  ⟨0, "u", "2025-03-01", Option.none, false, "t0", "t0"⟩

/-- Witness for claim C3 at the three-task scenario. -/
theorem claim_C3_witness :
    ∃ (db2 : Db) (nid : Option Nat),
      completeDispatch c3Db "u" 0 "t1"
        = (db2, Except.ok ({ c3Row with finalized := true, updatedAt := "t1" },
            (unfinishedLinkedTaskIds c3Db c3Row.id).length, nid))
      ∧ (nid = Option.none ↔ unfinishedLinkedTaskIds c3Db c3Row.id = [])
      ∧ db2.tasks = c3Db.tasks
      ∧ (∀ r ∈ db2.dispatches, r.id = c3Row.id → r.finalized = true)
      ∧ (unfinishedLinkedTaskIds c3Db c3Row.id = [] →
          db2.dispatchTasks = c3Db.dispatchTasks
          ∧ db2.dispatches = c3Db.dispatches.map (fun r =>
              if r.id == c3Row.id
              then { r with finalized := true, updatedAt := "t1" } else r))
      ∧ (∀ n, nid = some n →
          (∀ p : Nat × Nat, p ∈ db2.dispatchTasks ↔
            p ∈ c3Db.dispatchTasks
              ∨ (p.1 = n ∧ p.2 ∈ unfinishedLinkedTaskIds c3Db c3Row.id))
          ∧ ∃ nrow ∈ db2.dispatches, nrow.id = n ∧ nrow.userId = "u"
              ∧ nrow.date = nextDate c3Row.date) :=
  claim_C3.2 c3Db "u" 0 "t1" c3Row (by decide) (by decide) (by decide)

/-- Claim C4: get-or-create is idempotent (a second call for the same
user and date returns the same row and leaves the store alone, and the
pair has exactly one row when it had none and no extra row otherwise),
linking an already-linked pair is an error-free no-op leaving a single
link row for the pair, and unlinking a pair with no link row changes
nothing. -/
theorem claim_C4 :
    (∀ (db : Db) (u d now1 now2 : String) (r1 : DispatchRow) (db1 : Db),
      getOrCreateDispatch db u d now1 = (r1, db1) →
      getOrCreateDispatch db1 u d now2 = (r1, db1)
      ∧ db1.dispatches.countP (fun r => r.userId == u && r.date == d)
          = max 1 (db.dispatches.countP (fun r => r.userId == u && r.date == d)))
    ∧ (∀ (db : Db) (u : String) (did tid : Nat) (db2 : Db),
      linkTaskToDispatch db u did tid = (db2, Except.ok ()) →
      linkTaskToDispatch db2 u did tid = (db2, Except.ok ())
      ∧ db2.dispatchTasks.countP (fun p => p.1 == did && p.2 == tid)
          = max 1 (db.dispatchTasks.countP (fun p => p.1 == did && p.2 == tid)))
    ∧ (∀ (db : Db) (u : String) (did tid : Nat) (dispatch : DispatchRow),
      db.dispatches.find? (fun r => r.id == did && r.userId == u) = some dispatch →
      dispatch.finalized = false →
      (∀ p ∈ db.dispatchTasks, ¬ (p.1 = did ∧ p.2 = tid)) →
      unlinkTaskFromDispatch db u did tid = (db, Except.ok ())) := by
  refine ⟨?_, ?_, ?_⟩
  · intro db u d now1 now2 r1 db1 h1
    unfold getOrCreateDispatch at h1
    cases hf : findDispatch db u d with
    | some existing =>
      rw [hf] at h1
      simp only [Prod.mk.injEq] at h1
      obtain ⟨hr1, hdb1⟩ := h1
      unfold findDispatch at hf
      constructor
      · rw [← hdb1]
        unfold getOrCreateDispatch
        unfold findDispatch
        rw [hf, ← hr1]
      · rw [← hdb1]
        have hpos : 0 < db.dispatches.countP
            (fun r => r.userId == u && r.date == d) := by
          rw [List.countP_pos]
          refine ⟨existing, List.mem_of_find?_eq_some hf, ?_⟩
          have hsat := List.find?_some hf
          exact hsat
        omega
    | none =>
      rw [hf] at h1
      simp only [Prod.mk.injEq] at h1
      obtain ⟨hr1, hdb1⟩ := h1
      unfold findDispatch at hf
      have hzero : db.dispatches.countP (fun r => r.userId == u && r.date == d) = 0 := by
        rw [List.countP_eq_zero]
        exact fun a ha => List.find?_eq_none.mp hf a ha
      have hdisp1 : db1.dispatches = db.dispatches ++ [r1] := by
        rw [← hdb1, ← hr1]
      have hpred : (fun (r : DispatchRow) => r.userId == u && r.date == d) r1 = true := by
        rw [← hr1]
        simp
      have hone : List.find? (fun r => r.userId == u && r.date == d) [r1] = some r1 :=
        List.find?_cons_of_pos _ hpred
      have hfind1 : findDispatch db1 u d = some r1 := by
        unfold findDispatch
        rw [hdisp1, List.find?_append, hf, hone]
        rfl
      constructor
      · unfold getOrCreateDispatch
        rw [hfind1]
      · rw [hdisp1, List.countP_append, hzero]
        simp [List.countP_cons, hpred]
  · intro db u did tid db2 h
    unfold linkTaskToDispatch at h
    cases hd : db.dispatches.find? (fun r => r.id == did && r.userId == u) with
    | none =>
      rw [hd] at h
      simp only [Prod.mk.injEq] at h
      exact absurd h.2 (by simp)
    | some dispatch =>
      rw [hd] at h
      simp only [] at h
      by_cases hfin : dispatch.finalized = true
      · rw [if_pos hfin] at h
        simp only [Prod.mk.injEq] at h
        exact absurd h.2 (by simp)
      · rw [if_neg hfin] at h
        cases ht : db.tasks.find? (fun t =>
            t.id == tid && t.userId == u && t.deletedAt == Option.none) with
        | none =>
          rw [ht] at h
          simp only [Prod.mk.injEq] at h
          exact absurd h.2 (by simp)
        | some task =>
          rw [ht] at h
          simp only [] at h
          have hdp := List.find?_some hd
          simp only [Bool.and_eq_true, beq_iff_eq] at hdp
          obtain ⟨hdid, -⟩ := hdp
          have htp := List.find?_some ht
          simp only [Bool.and_eq_true, beq_iff_eq] at htp
          obtain ⟨⟨htid, -⟩, -⟩ := htp
          cases hp : db.dispatchTasks.find?
              (fun p => p.1 == dispatch.id && p.2 == task.id) with
          | some q =>
            rw [hp] at h
            simp only [Prod.mk.injEq] at h
            obtain ⟨hdb2, -⟩ := h
            rw [← hdb2]
            constructor
            · unfold linkTaskToDispatch
              rw [hd]
              simp only []
              rw [if_neg hfin, ht]
              simp only []
              rw [hp]
            · have hq : q ∈ db.dispatchTasks := List.mem_of_find?_eq_some hp
              have hqp := List.find?_some hp
              simp only [Bool.and_eq_true, beq_iff_eq] at hqp
              have hpos : 0 < db.dispatchTasks.countP
                  (fun p => p.1 == did && p.2 == tid) := by
                rw [List.countP_pos]
                refine ⟨q, hq, ?_⟩
                simp only [Bool.and_eq_true, beq_iff_eq]
                rw [hqp.1, hqp.2, hdid, htid]
                exact ⟨rfl, rfl⟩
              omega
          | none =>
            rw [hp] at h
            simp only [Prod.mk.injEq] at h
            obtain ⟨hdb2, -⟩ := h
            have hzero : db.dispatchTasks.countP
                (fun p => p.1 == did && p.2 == tid) = 0 := by
              rw [List.countP_eq_zero]
              intro a ha
              have := List.find?_eq_none.mp hp a ha
              simp only [Bool.and_eq_true, beq_iff_eq] at this ⊢
              rw [hdid, htid] at this
              exact this
            constructor
            · unfold linkTaskToDispatch
              have hdisp2 : db2.dispatches = db.dispatches := by rw [← hdb2]
              have htask2 : db2.tasks = db.tasks := by rw [← hdb2]
              rw [hdisp2, hd]
              simp only []
              rw [if_neg hfin, htask2, ht]
              simp only []
              have hsing : List.find? (fun p => p.1 == dispatch.id && p.2 == task.id)
                  [(dispatch.id, task.id)] = some (dispatch.id, task.id) :=
                List.find?_cons_of_pos _ (by simp)
              have hfound : db2.dispatchTasks.find?
                  (fun p => p.1 == dispatch.id && p.2 == task.id)
                  = some (dispatch.id, task.id) := by
                rw [← hdb2]
                show List.find? (fun p => p.1 == dispatch.id && p.2 == task.id)
                  (db.dispatchTasks ++ [(dispatch.id, task.id)])
                  = some (dispatch.id, task.id)
                rw [List.find?_append, hp, hsing]
                rfl
              rw [hfound]
            · rw [← hdb2]
              show List.countP (fun p => p.1 == did && p.2 == tid)
                (db.dispatchTasks ++ [(dispatch.id, task.id)])
                = max 1 (db.dispatchTasks.countP (fun p => p.1 == did && p.2 == tid))
              rw [List.countP_append, hzero]
              simp only [List.countP_cons, List.countP_nil, Bool.and_eq_true,
                beq_iff_eq]
              rw [if_pos ⟨hdid, htid⟩]
              simp
  · intro db u did tid dispatch hd hfin hnone
    unfold unlinkTaskFromDispatch
    rw [hd]
    simp only []
    rw [if_neg (by simp [hfin])]
    have hdp := List.find?_some hd
    simp only [Bool.and_eq_true, beq_iff_eq] at hdp
    have hfilter : db.dispatchTasks.filter
        (fun p => ¬ (p.1 == dispatch.id && p.2 == tid)) = db.dispatchTasks := by
      rw [List.filter_eq_self]
      intro a ha
      simp only [Bool.and_eq_true, beq_iff_eq, decide_eq_true_eq]
      rw [hdp.1]
      exact hnone a ha
    rw [hfilter]

/-- Store used by the claim C4 witness: one open dispatch and one live
task, not yet linked. -/
def c4Db : Db :=
  ⟨[⟨0, "u", "2025-03-01", Option.none, false, "t0", "t0"⟩], [],
   [⟨1, "u", "open", Option.none⟩], 1⟩

def c4Db2 : Db :=
  ⟨[⟨0, "u", "2025-03-01", Option.none, false, "t0", "t0"⟩], [(0, 1)],
   [⟨1, "u", "open", Option.none⟩], 1⟩

/-- Witness for claim C4: relinking a linked pair is an error-free
no-op with one link row, and unlinking a pair that is not linked
changes nothing. -/
theorem claim_C4_witness :
    (linkTaskToDispatch c4Db2 "u" 0 1 = (c4Db2, Except.ok ())
      ∧ c4Db2.dispatchTasks.countP (fun p => p.1 == 0 && p.2 == 1)
          = max 1 (c4Db.dispatchTasks.countP (fun p => p.1 == 0 && p.2 == 1)))
    ∧ unlinkTaskFromDispatch c4Db "u" 0 2 = (c4Db, Except.ok ()) :=
  ⟨claim_C4.2.1 c4Db "u" 0 1 c4Db2 (by rfl),
   claim_C4.2.2 c4Db "u" 0 2 ⟨0, "u", "2025-03-01", Option.none, false, "t0", "t0"⟩
     (by rfl) (by rfl) (by decide)⟩

/-- Claim C9 fails on the REST write surface: a PUT that sets
recurrenceType to none on a task stored with the duplicate-on-schedule
behavior leaves the behavior column untouched, so the stored row ends
with type none and behavior duplicate-on-schedule; the MCP update on
the very same stored row and change normalizes the behavior to
after-completion as the invariant demands. -/
theorem claim_C9 :
    restPutTask ⟨some "2025-01-10", TaskRecurrenceType.daily,
        TaskRecurrenceBehavior.duplicate_on_schedule, Option.none⟩
      ⟨Option.none, some TaskRecurrenceType.none, Option.none⟩
      = Except.ok ⟨some "2025-01-10", TaskRecurrenceType.none,
          TaskRecurrenceBehavior.duplicate_on_schedule, Option.none⟩
    ∧ mcpUpdateTask ⟨some "2025-01-10", TaskRecurrenceType.daily,
        TaskRecurrenceBehavior.duplicate_on_schedule, Option.none⟩
      ⟨Option.none, some TaskRecurrenceType.none, Option.none, Option.none⟩
      = Except.ok ⟨some "2025-01-10", TaskRecurrenceType.none,
          TaskRecurrenceBehavior.after_completion, Option.none⟩
    ∧ TaskRecurrenceBehavior.duplicate_on_schedule
        ≠ TaskRecurrenceBehavior.after_completion :=
  ⟨by rfl, by rfl, by decide⟩
